import Mathlib

/-!
Verification of the sharded buffer cache (`Lab8_locks/kernel/bio.c`) and of the
multi-level block-address translator (`Lab_9:File_System/kernel/fs.c`).

The C code is embedded shallowly as a sequential (single execution context)
state-transition system: spinlocks and the eviction lock therefore take effect
as atomicity of each operation, and the per-buffer sleep lock is modelled as a
`held` flag owned by the single caller (an `acquiresleep` on a buffer that is
already held blocks, which the embedding reports as `BErr.blocked`).  `panic`
is modelled as `BErr.fatal` carrying the C panic string.

Machine integers: `refcnt` is modelled as `Int` so that the eviction sentinel
written as `-1` in the C source is literal.  (If the field is an unsigned int
in `buf.h`, `-1` is `2^32-1`; the code only ever compares `refcnt` with `-1`
and `0` and adds or subtracts 1, so the `Int` model is observationally the
same on these programs.)  `ticks` is a `uint`; the only place its width
matters is `select_victim`'s initial bound `0xffffffff`, which is kept
literally.
-/

namespace Cache

/-- `#define BUCKETSIZE 13` (number of hashing buckets). -/
def BUCKETSIZE : Nat := 13

/-- `#define BUFFERSIZE 5` (number of buffers per bucket). -/
def BUFFERSIZE : Nat := 5

/-- Total number of buffers in the cache. -/
def NBUF : Nat := BUCKETSIZE * BUFFERSIZE

/-- `hash` from bio.c: `blockno % BUCKETSIZE`. -/
def hash (blockno : Nat) : Nat := blockno % BUCKETSIZE

/-- One cache slot (`struct buf`): identity, validity, reference count and
last-access tick.  The payload and the list links are not fields here: links
are represented by the bucket lists of `BState`, and the sleep lock by
`BState.held`. -/
structure Buf where
  dev : Nat
  blockno : Nat
  valid : Bool
  refcnt : Int
  ticks : Nat
deriving Repr, DecidableEq

/-- The whole cache state.  `buckets i` lists the slot ids of bucket `i` in
list order from `head.next` (front) to `head.prev` (back).  `held id` is true
while the single caller holds slot `id`'s sleep lock.  `assigned` is ghost
instrumentation: it records that a slot's identity has been written by a
`bget` miss (local recycle or cross-bucket steal); it changes no observable
behaviour.  `clock` is the external monotonic tick source. -/
structure BState where
  slots : Nat → Buf
  buckets : Nat → List Nat
  held : Nat → Bool
  assigned : Nat → Bool
  clock : Nat

/-- The zero-initialized `struct buf` (C globals start zeroed). -/
def buf0 : Buf := ⟨0, 0, false, 0, 0⟩

/-- State after `binit`: bucket `i` owns slots `5*i .. 5*i+4`; `binit` pushes
each at `head.next`, so the list from front to back is
`[5i+4, 5i+3, 5i+2, 5i+1, 5i]`. -/
def initState : BState where
  slots := fun _ => buf0
  buckets := fun i =>
    if i < BUCKETSIZE then
      [5 * i + 4, 5 * i + 3, 5 * i + 2, 5 * i + 1, 5 * i]
    else []
  held := fun _ => false
  assigned := fun _ => false
  clock := 0

/-- Errors of the sequential embedding: a C `panic`, or a blocking
`acquiresleep` (which, with a single execution context, never returns). -/
inductive BErr where
  | fatal (msg : String)
  | blocked
deriving Repr

/-- Which branch of `bget` produced the returned buffer (ghost observability;
the three return points of the C function). -/
inductive GetPath where
  | hit
  | recycle
  | steal
deriving Repr, DecidableEq

/-- The cached-block scan of `bget`: first slot in the bucket whose identity
matches, skipping slots with `refcnt == -1` (eviction in flight). -/
def findHit (s : BState) (dev blockno : Nat) : Option Nat :=
  (s.buckets (hash blockno)).find? fun id =>
    (s.slots id).dev == dev && (s.slots id).blockno == blockno &&
      (s.slots id).refcnt != -1

/-- The local-recycle scan of `bget`: walks the bucket from `head.prev`
backwards, so the first `refcnt == 0` slot from the back of the list. -/
def findFree (s : BState) (bk : Nat) : Option Nat :=
  (s.buckets bk).reverse.find? fun id => (s.slots id).refcnt == 0

/-- One comparison step of `select_victim`'s scan: record the slot if
`refcnt == 0 && ticks < least`. -/
def svStep (s : BState) (acc : Nat × Option Nat) (id : Nat) : Nat × Option Nat :=
  if (s.slots id).refcnt = 0 ∧ (s.slots id).ticks < acc.1 then
    ((s.slots id).ticks, some id)
  else acc

/-- The candidate sequence scanned by `select_victim`: buckets `0..12` in
order, skipping the requesting bucket, each walked from `head.prev`
backwards. -/
def victimCands (s : BState) (buckno : Nat) : List Nat :=
  (((List.range BUCKETSIZE).filter fun i => i ≠ buckno).map
    fun i => (s.buckets i).reverse).flatten

/-- The scan phase of `select_victim`, with `least` initialized to
`0xffffffff` exactly as in the source. -/
def victimScan (s : BState) (buckno : Nat) : Nat × Option Nat :=
  (victimCands s buckno).foldl (svStep s) (4294967295, none)

/-- `select_victim` from bio.c.  `.error (.fatal ...)` is the
`panic("bget: no buffers")` branch; `.ok none` is the `return 0` retry branch
(candidate taken between scan and re-check); `.ok (some (s, id))` marks the
candidate with the reservation sentinel `refcnt = -1` and returns it. -/
def select_victim (buckno : Nat) (s : BState) : Except BErr (Option (BState × Nat)) :=
  match (victimScan s buckno).2 with
  | none => .error (.fatal "bget: no buffers")
  | some id =>
      if (s.slots id).refcnt ≠ 0 then .ok none
      else
        let b := s.slots id
        .ok (some ({s with slots := Function.update s.slots id {b with refcnt := -1}}, id))

/-- `bget` from bio.c.  Three outcomes: a cache hit (bump `refcnt`, refresh
`ticks`), a local recycle of a `refcnt == 0` slot of the same bucket (identity
rewritten, `ticks` untouched), or a cross-bucket steal via `select_victim`
(unlink from the donor list, re-initialize including `ticks`, link at the back
of the destination list).  In the sequential embedding the retry loop around
`select_victim` runs its body once (no interleaving can invalidate the
candidate); its `.ok none` branch is mapped to `blocked` (the C code would
spin). -/
def bget (dev blockno : Nat) (s : BState) : Except BErr (BState × Nat × GetPath) :=
  let buckno := hash blockno
  match findHit s dev blockno with
  | some id =>
      if s.held id then .error .blocked
      else
        .ok ({s with
          slots := Function.update s.slots id
            {(s.slots id) with refcnt := (s.slots id).refcnt + 1, ticks := s.clock},
          held := Function.update s.held id true}, id, .hit)
  | none =>
  match findFree s buckno with
  | some id =>
      if s.held id then .error .blocked
      else
        .ok ({s with
          slots := Function.update s.slots id
            {(s.slots id) with dev := dev, blockno := blockno, valid := false, refcnt := 1},
          held := Function.update s.held id true,
          assigned := Function.update s.assigned id true}, id, .recycle)
  | none =>
  match select_victim buckno s with
  | .error e => .error e
  | .ok none => .error .blocked
  | .ok (some (s1, id)) =>
      if s1.held id then .error .blocked
      else
        .ok ({s1 with
          slots := Function.update s1.slots id
            ⟨dev, blockno, false, 1, s1.clock⟩,
          buckets := fun i =>
            if i = buckno then ((s1.buckets i).erase id) ++ [id]
            else (s1.buckets i).erase id,
          held := Function.update s1.held id true,
          assigned := Function.update s1.assigned id true}, id, .steal)

/-- `bread` from bio.c: `bget`, then populate from disk if not valid.  The
disk transfer is external; only the `valid` flag is observable here. -/
def bread (dev blockno : Nat) (s : BState) : Except BErr (BState × Nat × GetPath) :=
  match bget dev blockno s with
  | .error e => .error e
  | .ok (s1, id, p) =>
      if (s1.slots id).valid then .ok (s1, id, p)
      else
        let b := s1.slots id
        .ok ({s1 with slots := Function.update s1.slots id {b with valid := true}}, id, p)

/-- `brelse` from bio.c: panics unless the caller holds the sleep lock;
releases it; panics if `refcnt` is already the sentinel `-1`; decrements; on
reaching 0 unlinks the slot (pointer-based, from whatever list holds it) and
relinks it at the front (`head.next`) of bucket `hash(blockno)`. -/
def brelse (id : Nat) (s : BState) : Except BErr BState :=
  if s.held id then
    let s0 : BState := {s with held := Function.update s.held id false}
    let buckno := hash (s0.slots id).blockno
    if (s0.slots id).refcnt = -1 then .error (.fatal "brelse: refcnt == -1")
    else
      let b := s0.slots id
      let s1 : BState :=
        {s0 with slots := Function.update s0.slots id {b with refcnt := b.refcnt - 1}}
      if b.refcnt - 1 = 0 then
        .ok {s1 with buckets := fun i =>
          if i = buckno then id :: ((s1.buckets i).erase id)
          else (s1.buckets i).erase id}
      else .ok s1
  else .error (.fatal "brelse")

/-- `bpin` from bio.c: increment `refcnt` under the bucket lock.  No checks. -/
def bpin (id : Nat) (s : BState) : BState :=
  let b := s.slots id
  {s with slots := Function.update s.slots id {b with refcnt := b.refcnt + 1}}

/-- `bunpin` from bio.c: decrement `refcnt` under the bucket lock.  No checks. -/
def bunpin (id : Nat) (s : BState) : BState :=
  let b := s.slots id
  {s with slots := Function.update s.slots id {b with refcnt := b.refcnt - 1}}

/-- The monotonic tick source advances; the embedding lets it advance once per
completed cache operation. -/
def tick (s : BState) : BState := {s with clock := s.clock + 1}

/-- The operations a caller can issue against the cache. -/
inductive Op where
  | get (dev blockno : Nat)
  | read (dev blockno : Nat)
  | release (id : Nat)
  | pin (id : Nat)
  | unpin (id : Nat)

/-- One caller operation.  `none` means the operation panicked, blocked, or
violated the API discipline (releasing or pinning a buffer one does not hold;
unpinning a buffer that is not pinned), so no observation point results.
`pin` requires the checkout lock (as in `log_write`'s use); `unpin` is issued
on a previously pinned, not currently checked-out buffer (as at log commit). -/
def step (s : BState) (op : Op) : Option BState :=
  match op with
  | .get d n =>
      match bget d n s with
      | .ok (s1, _, _) => some (tick s1)
      | .error _ => none
  | .read d n =>
      match bread d n s with
      | .ok (s1, _, _) => some (tick s1)
      | .error _ => none
  | .release id =>
      match brelse id s with
      | .ok s1 => some (tick s1)
      | .error _ => none
  | .pin id =>
      if s.held id then some (tick (bpin id s)) else none
  | .unpin id =>
      if 1 ≤ (s.slots id).refcnt ∧ s.held id = false then
        some (tick (bunpin id s))
      else none

/-- Observation points: states reachable from the initialized cache by any
sequence of completed operations. -/
inductive Reach : BState → Prop where
  | init : Reach initState
  | next {s s' : BState} {op : Op} : Reach s → step s op = some s' → Reach s'

/-- `read (dev=1) n` immediately followed by the matching `release`, the
pattern of the spec's scenario properties. -/
def readRel (n : Nat) (s : BState) : Option BState :=
  match bread 1 n s with
  | .ok (s1, id, _) =>
      match brelse id (tick s1) with
      | .ok s2 => some (tick s2)
      | .error _ => none
  | .error _ => none

/-- Run `readRel` over a list of block numbers. -/
def runRR : List Nat → BState → Option BState
  | [], s => some s
  | n :: rest, s =>
      match readRel n s with
      | some s1 => runRR rest s1
      | none => none

/-- True when an `Except` is the fatal-panic outcome. -/
def isFatal {α : Type} : Except BErr α → Bool
  | .error (.fatal _) => true
  | _ => false

/-- The inductive invariant of the cache: at observation points every
`refcnt` is non-negative, a held slot has positive `refcnt`, an
identity-assigned slot sits in its hash bucket's list, and no two
identity-assigned slots carry the same `(dev, blockno)`. -/
def Inv (s : BState) : Prop :=
  (∀ id, 0 ≤ (s.slots id).refcnt) ∧
  (∀ id, s.held id = true → 1 ≤ (s.slots id).refcnt) ∧
  (∀ id, s.assigned id = true → id ∈ s.buckets (hash (s.slots id).blockno)) ∧
  (∀ id1 id2, s.assigned id1 = true → s.assigned id2 = true →
    (s.slots id1).dev = (s.slots id2).dev →
    (s.slots id1).blockno = (s.slots id2).blockno → id1 = id2)

/-- The uniqueness property exactly as claimed: at every reachable observation
point, at most one of the 65 slots with `refcnt ≥ 0` carries a given
`(dev, blockno)` identity. -/
def C1Stated : Prop :=
  ∀ s, Reach s → ∀ id1 id2, id1 < NBUF → id2 < NBUF →
    0 ≤ (s.slots id1).refcnt → 0 ≤ (s.slots id2).refcnt →
    (s.slots id1).dev = (s.slots id2).dev →
    (s.slots id1).blockno = (s.slots id2).blockno → id1 = id2

/-- State after one completed `read (1,1)` (which recycles slot 5 of
bucket 1). -/
def c1A : BState := (step initState (.read 1 1)).getD initState

/-- State after `read (1,1)` then the matching `release 5`: a nonempty
operation sequence after which 64 slots still share the never-assigned
identity `(0,0)` with `refcnt = 0`. -/
def c1B : BState := (step c1A (.release 5)).getD initState

/-- A cache in which the only `refcnt == 0` slot (slot 9, in bucket 1) has
last-access tick `0xffffffff`, the value `select_victim` initializes `least`
with; every other slot is in use. -/
def c4S : BState :=
  {initState with slots := fun id =>
    if id = 9 then ⟨0, 0, false, 0, 4294967295⟩ else ⟨0, 0, false, 1, 0⟩}

/-- The state `select_victim 0 initState` returns (slot 5 marked with the
reservation sentinel). -/
def c4WS : BState :=
  match select_victim 0 initState with
  | .ok (some (s, _)) => s
  | _ => initState

/-- A cache whose slot 0 is checked out (sleep lock held) while its `refcnt`
is already 0 — the refcnt-underflow situation for `brelse`. -/
def c5S : BState :=
  {initState with slots := Function.update initState.slots 0 ⟨1, 0, true, 0, 7⟩,
                  held := Function.update initState.held 0 true}

/-- A cache whose slot 0 carries the eviction sentinel `refcnt = -1` — the
situation the spec says every decrementing operation must treat as fatal. -/
def c5T : BState :=
  {initState with slots := Function.update initState.slots 0 ⟨1, 0, true, -1, 7⟩}

/-- The state produced by the local-recycle `bget 1 0` on the initial cache
(slot 0 recycled). -/
def c9S : BState :=
  match bget 1 0 initState with
  | .ok (s, _, _) => s
  | _ => initState

end Cache

namespace Fs

/-- Modelled from the spec: `fs.h` is not among the given sources.  The lab's
double-indirect layout keeps 13 address slots per inode: `NDIRECT = 11` direct
entries, `addrs[NDIRECT]` the single-indirect pointer and `addrs[NDIRECT+1]`
the double-indirect pointer. -/
def NDIRECT : Nat := 11

/-- Modelled from the spec: pointers per index block,
`BSIZE / sizeof(uint) = 256` (fs.c's own comments give the ranges 0~255). -/
def NINDIRECT : Nat := 256

/-- Blocks addressable through the double-indirect tree,
`NINDIRECT * NINDIRECT`. -/
def ND_INDIRECT : Nat := NINDIRECT * NINDIRECT

/-- The externally visible side effects of the translator, in program order:
allocator calls, frees, cache reads/releases, log writes and the inode
metadata flush. -/
inductive FsEv where
  | balloc (b : Nat)
  | bfree (b : Nat)
  | bread (b : Nat)
  | brelse (b : Nat)
  | log_write (b : Nat)
  | iupdate
deriving Repr, DecidableEq

/-- The in-memory inode as the translator sees it: device, the 13-entry block
address table (indices ≥ 13 are unused) and the size field. -/
structure Inode where
  dev : Nat
  addrs : Nat → Nat
  size : Nat

/-- The translator's world: disk contents (`disk b i` = the `i`-th 32-bit
pointer of block `b`), the allocator cursor, and the event trace.  The buffer
cache is abstracted to direct disk access here (the spec treats the cache and
the translator as separate layers); `bread`/`brelse`/`log_write` appear as
trace events. -/
structure FsState where
  disk : Nat → Nat → Nat
  nextFree : Nat
  events : List FsEv

/-- Append one event to the trace. -/
def emit (s : FsState) (e : FsEv) : FsState := {s with events := s.events ++ [e]}

/-- Modelled from the spec: the external allocator `allocate_block`.  It hands
out the next unused block number and zeroes the block (xv6's `balloc` zeroes
freshly allocated blocks via `bzero`, which is what makes a new index block
read as all-unallocated). -/
def balloc (s : FsState) : Nat × FsState :=
  (s.nextFree,
    { disk := fun b i => if b = s.nextFree then 0 else s.disk b i,
      nextFree := s.nextFree + 1,
      events := s.events ++ [.balloc s.nextFree] })

/-- Modelled from the spec: the external `free_block`; only the call is
observable (the bitmap lives outside this core). -/
def bfree (s : FsState) (b : Nat) : FsState := emit s (.bfree b)

/-- A write into a cached block's data, write-through at this abstraction
level (durability is the log's business, recorded by the `log_write` event). -/
def diskWrite (s : FsState) (b i v : Nat) : FsState :=
  {s with disk := fun b' i' => if b' = b ∧ i' = i then v else s.disk b' i'}

/-- `bmap` from fs.c: map logical block index `bn` of inode `ip` to a physical
block number, allocating direct entries, the single-indirect chain or the
double-indirect chain on demand; `panic("bmap: out of range")` beyond the
double-indirect range. -/
def bmap (ip : Inode) (bn : Nat) (s : FsState) : Except String (Nat × Inode × FsState) :=
  if bn < NDIRECT then
    if ip.addrs bn = 0 then
      let (a, s1) := balloc s
      .ok (a, {ip with addrs := Function.update ip.addrs bn a}, s1)
    else .ok (ip.addrs bn, ip, s)
  else
    let bn1 := bn - NDIRECT
    if bn1 < NINDIRECT then
      let (ind, ip1, s1) :=
        if ip.addrs NDIRECT = 0 then
          let (a, sa) := balloc s
          (a, {ip with addrs := Function.update ip.addrs NDIRECT a}, sa)
        else (ip.addrs NDIRECT, ip, s)
      let s2 := emit s1 (.bread ind)
      if s2.disk ind bn1 = 0 then
        let (a, s3) := balloc s2
        let s4 := emit (diskWrite s3 ind bn1 a) (.log_write ind)
        .ok (a, ip1, emit s4 (.brelse ind))
      else .ok (s2.disk ind bn1, ip1, emit s2 (.brelse ind))
    else
      let bn2 := bn1 - NINDIRECT
      if bn2 < ND_INDIRECT then
        let outer := bn2 / NINDIRECT
        let inner := bn2 % NINDIRECT
        let (dind, ip1, s1) :=
          if ip.addrs (NDIRECT + 1) = 0 then
            let (a, sa) := balloc s
            (a, {ip with addrs := Function.update ip.addrs (NDIRECT + 1) a}, sa)
          else (ip.addrs (NDIRECT + 1), ip, s)
        let s2 := emit s1 (.bread dind)
        let (child, s3) :=
          if s2.disk dind outer = 0 then
            let (a, sa) := balloc s2
            (a, emit (diskWrite sa dind outer a) (.log_write dind))
          else (s2.disk dind outer, s2)
        let s4 := emit s3 (.bread child)
        let (addr, s5) :=
          if s4.disk child inner = 0 then
            let (a, sa) := balloc s4
            (a, emit (diskWrite sa child inner a) (.log_write child))
          else (s4.disk child inner, s4)
        .ok (addr, ip1, emit (emit s5 (.brelse child)) (.brelse dind))
      else .error "bmap: out of range"

/-- One iteration of `itrunc`'s direct loop: free `addrs[i]` if nonzero and
zero the entry. -/
def dirStep (p : Inode × FsState) (i : Nat) : Inode × FsState :=
  if p.1.addrs i ≠ 0 then
    ({p.1 with addrs := Function.update p.1.addrs i 0}, bfree p.2 (p.1.addrs i))
  else p

/-- `itrunc`'s inner loop over one index block's pointer array `a`: free every
nonzero entry (entries are not written back — the block is about to be
freed). -/
def freeRange (a : Nat → Nat) (n : Nat) (t : FsState) : FsState :=
  (List.range n).foldl (fun u j => if a j ≠ 0 then bfree u (a j) else u) t

/-- One iteration of `itrunc`'s double-indirect loop over the outer array `b`:
read child `b[i]`, free its entries, release it, free it. -/
def dblStep (b : Nat → Nat) (t : FsState) (i : Nat) : FsState :=
  if b i ≠ 0 then
    let t1 := emit t (.bread (b i))
    let t2 := freeRange (t1.disk (b i)) NINDIRECT t1
    bfree (emit t2 (.brelse (b i))) (b i)
  else t

/-- `itrunc`'s single-indirect section: if `addrs[NDIRECT]` is nonzero, read
the index block, free its nonzero entries, release it, free it, zero the
pointer. -/
def singleStage (p : Inode × FsState) : Inode × FsState :=
  if p.1.addrs NDIRECT ≠ 0 then
    let ind := p.1.addrs NDIRECT
    let s2 := emit p.2 (.bread ind)
    let s3 := freeRange (s2.disk ind) NINDIRECT s2
    let s4 := bfree (emit s3 (.brelse ind)) ind
    ({p.1 with addrs := Function.update p.1.addrs NDIRECT 0}, s4)
  else p

/-- `itrunc`'s double-indirect section: if `addrs[NDIRECT+1]` is nonzero, read
the outer index block, run the child loop (`dblStep`) over its 256 entries,
release it, free it, zero the pointer. -/
def doubleStage (p : Inode × FsState) : Inode × FsState :=
  if p.1.addrs (NDIRECT + 1) ≠ 0 then
    let dind := p.1.addrs (NDIRECT + 1)
    let s5 := emit p.2 (.bread dind)
    let s6 := (List.range NINDIRECT).foldl (dblStep (s5.disk dind)) s5
    let s7 := bfree (emit s6 (.brelse dind)) dind
    ({p.1 with addrs := Function.update p.1.addrs (NDIRECT + 1) 0}, s7)
  else p

/-- `itrunc` from fs.c: free all direct blocks, then the single-indirect
chain, then the double-indirect chain, zeroing the inode's address-table
entries; finally reset `size` and persist the inode via `iupdate`. -/
def itrunc (ip : Inode) (s : FsState) : Inode × FsState :=
  let p3 := doubleStage (singleStage ((List.range NDIRECT).foldl dirStep (ip, s)))
  ({p3.1 with size := 0}, emit p3.2 .iupdate)

/-- Project a `bfree` event to the freed block number. -/
def freedProj : FsEv → Option Nat
  | .bfree b => some b
  | _ => none

/-- Project a `balloc` event to the allocated block number. -/
def allocProj : FsEv → Option Nat
  | .balloc b => some b
  | _ => none

/-- Project a `bread` event to the block number read. -/
def readProj : FsEv → Option Nat
  | .bread b => some b
  | _ => none

/-- The block numbers passed to `free_block`, in trace order. -/
def freedOf (s : FsState) : List Nat := s.events.filterMap freedProj

/-- The block numbers handed out by the allocator, in trace order. -/
def allocsOf (s : FsState) : List Nat := s.events.filterMap allocProj

/-- The blocks read through the cache, in trace order. -/
def readsOf (s : FsState) : List Nat := s.events.filterMap readProj

/-- The full event trace one `itrunc` call appends, as a function of the
inode and the (unchanging) disk: the direct frees, then the single-indirect
section, then the double-indirect section, then the `iupdate`. -/
def itruncDelta (ip : Inode) (d : Nat → Nat → Nat) : List FsEv :=
  (((List.range NDIRECT).map ip.addrs).filter (· ≠ 0)).map FsEv.bfree ++
  (if ip.addrs NDIRECT ≠ 0 then
    FsEv.bread (ip.addrs NDIRECT) ::
      ((((List.range NINDIRECT).map (d (ip.addrs NDIRECT))).filter (· ≠ 0)).map FsEv.bfree ++
        [FsEv.brelse (ip.addrs NDIRECT), FsEv.bfree (ip.addrs NDIRECT)])
  else []) ++
  (if ip.addrs (NDIRECT + 1) ≠ 0 then
    FsEv.bread (ip.addrs (NDIRECT + 1)) ::
      (((List.range NINDIRECT).map (fun i =>
        if d (ip.addrs (NDIRECT + 1)) i ≠ 0 then
          FsEv.bread (d (ip.addrs (NDIRECT + 1)) i) ::
            ((((List.range NINDIRECT).map (d (d (ip.addrs (NDIRECT + 1)) i))).filter
                (· ≠ 0)).map FsEv.bfree ++
              [FsEv.brelse (d (ip.addrs (NDIRECT + 1)) i),
               FsEv.bfree (d (ip.addrs (NDIRECT + 1)) i)])
        else [])).flatten ++
        [FsEv.brelse (ip.addrs (NDIRECT + 1)), FsEv.bfree (ip.addrs (NDIRECT + 1))])
  else []) ++
  [FsEv.iupdate]

/-- The spec's description of what truncation must free, in the spec's order:
every nonzero direct entry; every nonzero entry of the single-indirect block
followed by that block itself; for each nonzero child of the double-indirect
block its nonzero entries followed by the child, and finally the
double-indirect block itself.  Written from the spec's words, to be compared
with the trace the embedded `itrunc` produces. -/
def specFreed (ip : Inode) (d : Nat → Nat → Nat) : List Nat :=
  (((List.range NDIRECT).map ip.addrs).filter (· ≠ 0)) ++
  (if ip.addrs NDIRECT ≠ 0 then
    (((List.range NINDIRECT).map (d (ip.addrs NDIRECT))).filter (· ≠ 0)) ++ [ip.addrs NDIRECT]
  else []) ++
  (if ip.addrs (NDIRECT + 1) ≠ 0 then
    ((List.range NINDIRECT).map (fun i =>
      let c := d (ip.addrs (NDIRECT + 1)) i
      if c ≠ 0 then (((List.range NINDIRECT).map (d c)).filter (· ≠ 0)) ++ [c]
      else [])).flatten ++ [ip.addrs (NDIRECT + 1)]
  else [])

/-- An inode with one single-indirect block (block 100) whose entry 0 points
at data block 200. -/
def c6Ip : Inode := ⟨1, fun k => if k = 11 then 100 else 0, 500⟩

/-- The matching disk: block 100's pointer array holds 200 at index 0; the
allocator cursor is above every used block. -/
def c6S : FsState := ⟨fun b i => if b = 100 ∧ i = 0 then 200 else 0, 1000, []⟩

/-- An inode whose direct entry 0 is already mapped (to block 7). -/
def c2Ip : Inode := ⟨1, fun k => if k = 0 then 7 else 0, 0⟩

end Fs

namespace Fs

lemma bfree_disk (s : FsState) (b : Nat) : (bfree s b).disk = s.disk := rfl

lemma bfree_nextFree (s : FsState) (b : Nat) : (bfree s b).nextFree = s.nextFree := rfl

lemma bfree_events (s : FsState) (b : Nat) :
    (bfree s b).events = s.events ++ [FsEv.bfree b] := rfl

lemma emit_disk (s : FsState) (e : FsEv) : (emit s e).disk = s.disk := rfl

lemma emit_nextFree (s : FsState) (e : FsEv) : (emit s e).nextFree = s.nextFree := rfl

lemma emit_events (s : FsState) (e : FsEv) : (emit s e).events = s.events ++ [e] := rfl

lemma freeRange_spec (a : Nat → Nat) (n : Nat) (t : FsState) :
    (freeRange a n t).disk = t.disk ∧ (freeRange a n t).nextFree = t.nextFree ∧
    (freeRange a n t).events =
      t.events ++ (((List.range n).map a).filter (· ≠ 0)).map FsEv.bfree := by
  induction n with
  | zero => simp [freeRange]
  | succ m ih =>
      obtain ⟨h1, h2, h3⟩ := ih
      unfold freeRange at h1 h2 h3 ⊢
      rw [List.range_succ, List.foldl_append, List.foldl_cons, List.foldl_nil]
      by_cases h : a m = 0
      · rw [if_neg (by simp [h])]
        refine ⟨h1, h2, ?_⟩
        rw [h3]
        simp [List.range_succ, h]
      · rw [if_pos h]
        refine ⟨h1, h2, ?_⟩
        rw [bfree_events, h3]
        simp [List.range_succ, h]

end Fs

namespace Fs

lemma dblFold_spec (b : Nat → Nat) (n : Nat) (t : FsState) :
    ((List.range n).foldl (dblStep b) t).disk = t.disk ∧
    ((List.range n).foldl (dblStep b) t).nextFree = t.nextFree ∧
    ((List.range n).foldl (dblStep b) t).events =
      t.events ++ ((List.range n).map (fun i =>
        if b i ≠ 0 then
          FsEv.bread (b i) ::
            ((((List.range NINDIRECT).map (t.disk (b i))).filter (· ≠ 0)).map FsEv.bfree ++
              [FsEv.brelse (b i), FsEv.bfree (b i)])
        else [])).flatten := by
  induction n with
  | zero => simp
  | succ m ih =>
      obtain ⟨h1, h2, h3⟩ := ih
      rw [List.range_succ, List.foldl_append, List.foldl_cons, List.foldl_nil]
      by_cases h : b m = 0
      · have hstep : dblStep b ((List.range m).foldl (dblStep b) t) m
            = (List.range m).foldl (dblStep b) t := by
          unfold dblStep
          rw [if_neg (by simp [h])]
        rw [hstep]
        refine ⟨h1, h2, ?_⟩
        rw [h3]
        simp [List.range_succ, h]
      · set r := (List.range m).foldl (dblStep b) t with hr
        have hstep : dblStep b r m
            = bfree (emit (freeRange ((emit r (.bread (b m))).disk (b m)) NINDIRECT
                (emit r (.bread (b m)))) (.brelse (b m))) (b m) := by
          unfold dblStep
          rw [if_pos h]
        obtain ⟨f1, f2, f3⟩ := freeRange_spec ((emit r (.bread (b m))).disk (b m)) NINDIRECT
          (emit r (.bread (b m)))
        constructor
        · rw [hstep, bfree_disk, emit_disk, f1, emit_disk, h1]
        constructor
        · rw [hstep, bfree_nextFree, emit_nextFree, f2, emit_nextFree, h2]
        · rw [hstep, bfree_events, emit_events, f3, emit_events, h3]
          have hd : (emit r (.bread (b m))).disk (b m) = t.disk (b m) := by
            rw [emit_disk, h1]
          rw [hd]
          simp [List.range_succ, h, List.append_assoc]

end Fs

namespace Fs

lemma dirFold_spec (n : Nat) (ip : Inode) (s : FsState) :
    (∀ j, ((List.range n).foldl dirStep (ip, s)).1.addrs j =
      if j < n then 0 else ip.addrs j) ∧
    ((List.range n).foldl dirStep (ip, s)).1.dev = ip.dev ∧
    ((List.range n).foldl dirStep (ip, s)).1.size = ip.size ∧
    ((List.range n).foldl dirStep (ip, s)).2.disk = s.disk ∧
    ((List.range n).foldl dirStep (ip, s)).2.nextFree = s.nextFree ∧
    ((List.range n).foldl dirStep (ip, s)).2.events =
      s.events ++ (((List.range n).map ip.addrs).filter (· ≠ 0)).map FsEv.bfree := by
  induction n with
  | zero => simp
  | succ m ih =>
      obtain ⟨ha, hd, hsz, hk, hn, he⟩ := ih
      rw [List.range_succ, List.foldl_append, List.foldl_cons, List.foldl_nil]
      set r := (List.range m).foldl dirStep (ip, s) with hr
      have haddr : r.1.addrs m = ip.addrs m := by
        rw [ha m, if_neg (by omega)]
      by_cases h : ip.addrs m = 0
      · have hstep : dirStep r m = r := by
          unfold dirStep
          rw [if_neg (by rw [haddr]; simp [h])]
        rw [hstep]
        refine ⟨?_, hd, hsz, hk, hn, ?_⟩
        · intro j
          rw [ha j]
          by_cases hj : j = m
          · subst hj
            rw [if_neg (by omega), if_pos (by omega), h]
          · by_cases hj2 : j < m
            · rw [if_pos hj2, if_pos (by omega)]
            · rw [if_neg hj2, if_neg (by omega)]
        · rw [he]
          simp [List.range_succ, h]
      · have hstep : dirStep r m =
            ({r.1 with addrs := Function.update r.1.addrs m 0}, bfree r.2 (r.1.addrs m)) := by
          unfold dirStep
          rw [if_pos (by rw [haddr]; exact h)]
        rw [hstep]
        refine ⟨?_, hd, hsz, hk, hn, ?_⟩
        · intro j
          by_cases hj : j = m
          · show Function.update r.1.addrs m 0 j = _
            rw [hj, Function.update_same, if_pos (by omega)]
          · show Function.update r.1.addrs m 0 j = _
            rw [Function.update_noteq hj, ha j]
            by_cases hj2 : j < m
            · rw [if_pos hj2, if_pos (by omega)]
            · rw [if_neg hj2, if_neg (by omega)]
        · rw [bfree_events, he, haddr]
          simp [List.range_succ, h]

end Fs

namespace Fs

lemma singleStage_spec (p : Inode × FsState) :
    (singleStage p).1.addrs = Function.update p.1.addrs NDIRECT 0 ∧
    (singleStage p).1.dev = p.1.dev ∧ (singleStage p).1.size = p.1.size ∧
    (singleStage p).2.disk = p.2.disk ∧ (singleStage p).2.nextFree = p.2.nextFree ∧
    (singleStage p).2.events = p.2.events ++
      (if p.1.addrs NDIRECT ≠ 0 then
        FsEv.bread (p.1.addrs NDIRECT) ::
          ((((List.range NINDIRECT).map (p.2.disk (p.1.addrs NDIRECT))).filter
              (· ≠ 0)).map FsEv.bfree ++
            [FsEv.brelse (p.1.addrs NDIRECT), FsEv.bfree (p.1.addrs NDIRECT)])
      else []) := by
  by_cases h : p.1.addrs NDIRECT = 0
  · unfold singleStage
    rw [if_neg (by simp [h])]
    refine ⟨?_, rfl, rfl, rfl, rfl, ?_⟩
    · rw [← h, Function.update_eq_self]
    · rw [if_neg (by simp [h])]
      simp
  · unfold singleStage
    rw [if_pos h]
    obtain ⟨f1, f2, f3⟩ := freeRange_spec ((emit p.2 (.bread (p.1.addrs NDIRECT))).disk
      (p.1.addrs NDIRECT)) NINDIRECT (emit p.2 (.bread (p.1.addrs NDIRECT)))
    refine ⟨rfl, rfl, rfl, ?_, ?_, ?_⟩
    · show (bfree (emit _ _) _).disk = _
      rw [bfree_disk, emit_disk, f1, emit_disk]
    · show (bfree (emit _ _) _).nextFree = _
      rw [bfree_nextFree, emit_nextFree, f2, emit_nextFree]
    · show (bfree (emit _ _) _).events = _
      rw [bfree_events, emit_events, f3, emit_events, emit_disk, if_pos h]
      simp [List.append_assoc]

lemma doubleStage_spec (p : Inode × FsState) :
    (doubleStage p).1.addrs = Function.update p.1.addrs (NDIRECT + 1) 0 ∧
    (doubleStage p).1.dev = p.1.dev ∧ (doubleStage p).1.size = p.1.size ∧
    (doubleStage p).2.disk = p.2.disk ∧ (doubleStage p).2.nextFree = p.2.nextFree ∧
    (doubleStage p).2.events = p.2.events ++
      (if p.1.addrs (NDIRECT + 1) ≠ 0 then
        FsEv.bread (p.1.addrs (NDIRECT + 1)) ::
          (((List.range NINDIRECT).map (fun i =>
            if p.2.disk (p.1.addrs (NDIRECT + 1)) i ≠ 0 then
              FsEv.bread (p.2.disk (p.1.addrs (NDIRECT + 1)) i) ::
                ((((List.range NINDIRECT).map
                    (p.2.disk (p.2.disk (p.1.addrs (NDIRECT + 1)) i))).filter
                    (· ≠ 0)).map FsEv.bfree ++
                  [FsEv.brelse (p.2.disk (p.1.addrs (NDIRECT + 1)) i),
                   FsEv.bfree (p.2.disk (p.1.addrs (NDIRECT + 1)) i)])
            else [])).flatten ++
            [FsEv.brelse (p.1.addrs (NDIRECT + 1)), FsEv.bfree (p.1.addrs (NDIRECT + 1))])
      else []) := by
  by_cases h : p.1.addrs (NDIRECT + 1) = 0
  · unfold doubleStage
    rw [if_neg (by simp [h])]
    refine ⟨?_, rfl, rfl, rfl, rfl, ?_⟩
    · rw [← h, Function.update_eq_self]
    · rw [if_neg (by simp [h])]
      simp
  · unfold doubleStage
    rw [if_pos h]
    obtain ⟨f1, f2, f3⟩ := dblFold_spec ((emit p.2 (.bread (p.1.addrs (NDIRECT + 1)))).disk
      (p.1.addrs (NDIRECT + 1))) NINDIRECT (emit p.2 (.bread (p.1.addrs (NDIRECT + 1))))
    refine ⟨rfl, rfl, rfl, ?_, ?_, ?_⟩
    · show (bfree (emit _ _) _).disk = _
      rw [bfree_disk, emit_disk, f1, emit_disk]
    · show (bfree (emit _ _) _).nextFree = _
      rw [bfree_nextFree, emit_nextFree, f2, emit_nextFree]
    · show (bfree (emit _ _) _).events = _
      rw [bfree_events, emit_events, f3, emit_events, if_pos h]
      simp only [emit_disk]
      simp [List.append_assoc]

end Fs

namespace Fs

set_option maxHeartbeats 1000000 in
lemma itrunc_spec (ip : Inode) (s : FsState) :
    (∀ j, (itrunc ip s).1.addrs j = if j < NDIRECT + 2 then 0 else ip.addrs j) ∧
    (itrunc ip s).1.dev = ip.dev ∧
    (itrunc ip s).1.size = 0 ∧
    (itrunc ip s).2.disk = s.disk ∧
    (itrunc ip s).2.nextFree = s.nextFree ∧
    (itrunc ip s).2.events = s.events ++ itruncDelta ip s.disk := by
  obtain ⟨a1, d1, z1, k1, n1, e1⟩ := dirFold_spec NDIRECT ip s
  set p1 := (List.range NDIRECT).foldl dirStep (ip, s) with hp1
  obtain ⟨a2, d2, z2, k2, n2, e2⟩ := singleStage_spec p1
  set p2 := singleStage p1 with hp2
  obtain ⟨a3, d3, z3, k3, n3, e3⟩ := doubleStage_spec p2
  set p3 := doubleStage p2 with hp3
  clear_value p1 p2 p3
  have hA11 : p1.1.addrs NDIRECT = ip.addrs NDIRECT := by
    rw [a1, if_neg (by omega)]
  have hA12 : p1.1.addrs (NDIRECT + 1) = ip.addrs (NDIRECT + 1) := by
    rw [a1, if_neg (by omega)]
  have hA22 : p2.1.addrs (NDIRECT + 1) = ip.addrs (NDIRECT + 1) := by
    rw [a2, Function.update_noteq (by omega), hA12]
  have hit : itrunc ip s = ({p3.1 with size := 0}, emit p3.2 .iupdate) := by
    rw [hp3, hp2, hp1]
    simp only [itrunc]
  rw [hit]
  refine ⟨?_, ?_, rfl, ?_, ?_, ?_⟩
  · intro j
    show p3.1.addrs j = _
    rw [a3, a2]
    by_cases hj1 : j = NDIRECT + 1
    · rw [hj1, Function.update_same, if_pos (by omega)]
    · rw [Function.update_noteq hj1]
      by_cases hj2 : j = NDIRECT
      · rw [hj2, Function.update_same, if_pos (by omega)]
      · rw [Function.update_noteq hj2, a1]
        by_cases hj3 : j < NDIRECT
        · rw [if_pos hj3, if_pos (by omega)]
        · rw [if_neg hj3, if_neg (by omega)]
  · show p3.1.dev = ip.dev
    rw [d3, d2, d1]
  · show (emit p3.2 .iupdate).disk = s.disk
    rw [emit_disk, k3, k2, k1]
  · show (emit p3.2 .iupdate).nextFree = s.nextFree
    rw [emit_nextFree, n3, n2, n1]
  · show (emit p3.2 .iupdate).events = s.events ++ itruncDelta ip s.disk
    rw [emit_events, e3, e2, e1, hA11, hA22, k2, k1]
    simp [itruncDelta, List.append_assoc]

end Fs

namespace Fs

lemma dirFold_noop (n : Nat) (ip : Inode) (s : FsState)
    (h : ∀ j, j < n → ip.addrs j = 0) :
    (List.range n).foldl dirStep (ip, s) = (ip, s) := by
  induction n with
  | zero => simp
  | succ m ih =>
      rw [List.range_succ, List.foldl_append, ih (fun j hj => h j (by omega)),
        List.foldl_cons, List.foldl_nil]
      unfold dirStep
      rw [if_neg (by simp [h m (by omega)])]

lemma itrunc_noop (ip : Inode) (s : FsState)
    (h : ∀ k, k < NDIRECT + 2 → ip.addrs k = 0) :
    itrunc ip s = ({ip with size := 0}, emit s .iupdate) := by
  have h1 : singleStage (ip, s) = (ip, s) := by
    unfold singleStage
    rw [if_neg (by simp [h NDIRECT (by omega)])]
  have h2 : doubleStage (ip, s) = (ip, s) := by
    unfold doubleStage
    rw [if_neg (by simp [h (NDIRECT + 1) (by omega)])]
  simp only [itrunc, dirFold_noop NDIRECT ip s (fun j hj => h j (by omega)), h1, h2]

lemma freedOf_itrunc (ip : Inode) (s : FsState) (hev : s.events = []) :
    freedOf (itrunc ip s).2 = specFreed ip s.disk := by
  obtain ⟨-, -, -, -, -, he⟩ := itrunc_spec ip s
  rw [freedOf, he, hev, List.nil_append, itruncDelta, specFreed]
  have hbf : ∀ l : List Nat, List.filterMap freedProj (l.map FsEv.bfree) = l := by
    intro l
    induction l with
    | nil => rfl
    | cons a t ih => simp [freedProj, ih]
  simp [List.filterMap_append, List.filterMap_flatten, List.filterMap_cons,
    Function.comp_def, freedProj, apply_ite (List.filterMap freedProj),
    List.map_map, List.filterMap_some, hbf]

end Fs

namespace Fs

/-- C3: `truncate(inode)` calls `free_block` exactly once per reachable
allocated block, in an order where every index block is freed only after all
blocks it references (the double-indirect block last), then resets `size` to 0
and persists the inode metadata.  The freed trace equals the spec-side
`specFreed` list; under the standard well-formedness assumption that the
reachable references are pairwise distinct, every reachable block is freed
exactly once and nothing else is freed. -/
theorem C3_itrunc_frees_reachable_exactly_once (ip : Inode) (s : FsState)
    (hev : s.events = []) :
    freedOf (itrunc ip s).2 = specFreed ip s.disk ∧
    (itrunc ip s).1.size = 0 ∧
    (itrunc ip s).2.events.getLast? = some FsEv.iupdate ∧
    (ip.addrs (NDIRECT + 1) ≠ 0 →
      (freedOf (itrunc ip s).2).getLast? = some (ip.addrs (NDIRECT + 1))) ∧
    ((specFreed ip s.disk).Nodup →
      ∀ blk, (freedOf (itrunc ip s).2).count blk =
        if blk ∈ specFreed ip s.disk then 1 else 0) := by
  have hfd := freedOf_itrunc ip s hev
  obtain ⟨ha, hd, hz, hk, hn, he⟩ := itrunc_spec ip s
  refine ⟨hfd, hz, ?_, ?_, ?_⟩
  · rw [he, itruncDelta]
    simp [List.getLast?_append, List.getLast?_concat]
  · intro hdd
    rw [hfd, specFreed, if_pos hdd]
    simp [List.getLast?_append, List.getLast?_concat]
  · intro hnd blk
    rw [hfd]
    by_cases hm : blk ∈ specFreed ip s.disk
    · rw [if_pos hm, List.count_eq_one_of_mem hnd hm]
    · rw [if_neg hm, List.count_eq_zero.mpr hm]

/-- Witness for C3 at a concrete inode: one single-indirect block (100)
holding one data pointer (200). -/
theorem C3_witness :
    freedOf (itrunc c6Ip c6S).2 = specFreed c6Ip c6S.disk ∧
    (itrunc c6Ip c6S).1.size = 0 :=
  ⟨(C3_itrunc_frees_reachable_exactly_once c6Ip c6S rfl).1,
   (C3_itrunc_frees_reachable_exactly_once c6Ip c6S rfl).2.1⟩

set_option maxRecDepth 4000 in
/-- C6 counterexample: after truncating `c6Ip`, the pointer stored *inside*
the freed single-indirect block 100 still reads 200, not the unallocated
sentinel 0 — `itrunc` zeroes only the inode's own address table, never the
entries inside index blocks. -/
theorem C6_counterexample :
    c6Ip.addrs NDIRECT = 100 ∧ c6S.disk 100 0 = 200 ∧
    (itrunc c6Ip c6S).2.disk 100 0 = 200 ∧ (200 : Nat) ≠ 0 := by decide

/-- C6 amended: after `truncate`, every entry of the inode's own address
table (direct entries, the single-indirect pointer and the double-indirect
pointer) reads 0, each zeroed as the block it names is freed; the contents of
the freed index blocks themselves are not modified at all (`itrunc` never
writes the disk). -/
theorem C6_amended_addrs_zeroed_disk_untouched (ip : Inode) (s : FsState) :
    (∀ k, k < NDIRECT + 2 → (itrunc ip s).1.addrs k = 0) ∧
    (itrunc ip s).2.disk = s.disk := by
  obtain ⟨ha, -, -, hk, -, -⟩ := itrunc_spec ip s
  exact ⟨fun k hk2 => by rw [ha k, if_pos hk2], hk⟩

/-- Witness for C6 (amended) at the concrete inode `c6Ip`. -/
theorem C6_witness : (itrunc c6Ip c6S).1.addrs 11 = 0 :=
  (C6_amended_addrs_zeroed_disk_untouched c6Ip c6S).1 11 (by decide)

lemma inode_size_eta (i : Inode) (h : i.size = 0) : ({i with size := 0} : Inode) = i := by
  cases i
  simp_all

/-- C10: `truncate` is idempotent — a second `itrunc` frees nothing, reads
nothing through the cache, changes neither the address table nor the size,
and only re-persists the inode metadata (one more `iupdate` event). -/
theorem C10_itrunc_idempotent (ip : Inode) (s : FsState) :
    itrunc (itrunc ip s).1 (itrunc ip s).2 =
      ((itrunc ip s).1, emit (itrunc ip s).2 .iupdate) ∧
    freedOf (itrunc (itrunc ip s).1 (itrunc ip s).2).2 = freedOf (itrunc ip s).2 ∧
    readsOf (itrunc (itrunc ip s).1 (itrunc ip s).2).2 = readsOf (itrunc ip s).2 := by
  obtain ⟨ha, -, hz, -, -, -⟩ := itrunc_spec ip s
  have hzero : ∀ k, k < NDIRECT + 2 → (itrunc ip s).1.addrs k = 0 :=
    fun k hk => by rw [ha k, if_pos hk]
  have hn := itrunc_noop (itrunc ip s).1 (itrunc ip s).2 hzero
  rw [hn, inode_size_eta _ hz]
  refine ⟨rfl, ?_, ?_⟩
  · show freedOf (emit (itrunc ip s).2 .iupdate) = _
    simp [freedOf, emit, freedProj]
  · show readsOf (emit (itrunc ip s).2 .iupdate) = _
    simp [readsOf, emit, readProj]

end Fs

namespace Fs

lemma bmap_direct_hit (ip : Inode) (bn : Nat) (s : FsState)
    (h1 : bn < NDIRECT) (h2 : ip.addrs bn ≠ 0) :
    bmap ip bn s = .ok (ip.addrs bn, ip, s) := by
  unfold bmap
  rw [if_pos h1, if_neg (by simp [h2])]

lemma bmap_direct_alloc (ip : Inode) (bn : Nat) (s : FsState)
    (h1 : bn < NDIRECT) (h2 : ip.addrs bn = 0) :
    ∃ ip1 s1, bmap ip bn s = .ok (s.nextFree, ip1, s1) ∧
      ip1.addrs bn = s.nextFree ∧ (∀ j, j ≠ bn → ip1.addrs j = ip.addrs j) ∧
      s1.events = s.events ++ [.balloc s.nextFree] ∧ s1.nextFree = s.nextFree + 1 := by
  unfold bmap
  rw [if_pos h1, if_pos (by simp [h2])]
  refine ⟨_, _, rfl, ?_, ?_, ?_, ?_⟩
  · simp [balloc, Function.update_same]
  · intro j hj
    simp [balloc, Function.update_noteq hj]
  · simp [balloc]
  · simp [balloc]

lemma bmap_single_hit (ip : Inode) (bn : Nat) (s : FsState)
    (h1 : NDIRECT ≤ bn) (h2 : bn < NDIRECT + NINDIRECT) (h3 : ip.addrs NDIRECT ≠ 0)
    (h4 : s.disk (ip.addrs NDIRECT) (bn - NDIRECT) ≠ 0) :
    ∃ s1, bmap ip bn s = .ok (s.disk (ip.addrs NDIRECT) (bn - NDIRECT), ip, s1) ∧
      s1.disk = s.disk ∧ s1.nextFree = s.nextFree ∧
      s1.events = s.events ++ [.bread (ip.addrs NDIRECT), .brelse (ip.addrs NDIRECT)] := by
  unfold bmap
  rw [if_neg (by omega), if_pos (by omega), if_neg (by simp [h3])]
  dsimp only
  rw [if_neg (by simp [emit_disk, h4])]
  exact ⟨_, rfl, by simp [emit], by simp [emit], by simp [emit]⟩

lemma bmap_single_alloc_entry (ip : Inode) (bn : Nat) (s : FsState)
    (h1 : NDIRECT ≤ bn) (h2 : bn < NDIRECT + NINDIRECT) (h3 : ip.addrs NDIRECT ≠ 0)
    (h4 : s.disk (ip.addrs NDIRECT) (bn - NDIRECT) = 0) :
    ∃ s1, bmap ip bn s = .ok (s.nextFree, ip, s1) ∧
      s1.disk (ip.addrs NDIRECT) (bn - NDIRECT) = s.nextFree ∧
      s1.events = s.events ++ [.bread (ip.addrs NDIRECT), .balloc s.nextFree,
        .log_write (ip.addrs NDIRECT), .brelse (ip.addrs NDIRECT)] ∧
      s1.nextFree = s.nextFree + 1 := by
  unfold bmap
  rw [if_neg (by omega), if_pos (by omega), if_neg (by simp [h3])]
  dsimp only
  rw [if_pos (by simp [emit_disk, h4])]
  dsimp only [balloc, emit, diskWrite]
  exact ⟨_, rfl, by simp [h3], by simp, by simp⟩

lemma bmap_single_alloc_ind (ip : Inode) (bn : Nat) (s : FsState)
    (h1 : NDIRECT ≤ bn) (h2 : bn < NDIRECT + NINDIRECT) (h3 : ip.addrs NDIRECT = 0) :
    ∃ ip1 s1, bmap ip bn s = .ok (s.nextFree + 1, ip1, s1) ∧
      ip1.addrs NDIRECT = s.nextFree ∧
      (∀ j, j ≠ NDIRECT → ip1.addrs j = ip.addrs j) ∧
      s1.disk s.nextFree (bn - NDIRECT) = s.nextFree + 1 ∧
      s1.events = s.events ++ [.balloc s.nextFree, .bread s.nextFree,
        .balloc (s.nextFree + 1), .log_write s.nextFree, .brelse s.nextFree] ∧
      s1.nextFree = s.nextFree + 2 := by
  unfold bmap
  rw [if_neg (by omega), if_pos (by omega), if_pos (by simp [h3])]
  dsimp only [balloc, emit, diskWrite]
  rw [if_pos (by simp)]
  refine ⟨_, _, rfl, by simp [Function.update_same], ?_, by simp, by simp, by simp⟩
  intro j hj
  simp [Function.update_noteq hj]

lemma bmap_out_of_range (ip : Inode) (bn : Nat) (s : FsState)
    (h : NDIRECT + NINDIRECT + ND_INDIRECT ≤ bn) :
    bmap ip bn s = .error "bmap: out of range" := by
  unfold bmap
  rw [if_neg (by omega), if_neg (by omega), if_neg (by omega)]

lemma bmap_dbl_hit (ip : Inode) (bn : Nat) (s : FsState) (off : Nat)
    (hbn : bn = NDIRECT + NINDIRECT + off) (hoff : off < ND_INDIRECT)
    (h3 : ip.addrs (NDIRECT + 1) ≠ 0)
    (h4 : s.disk (ip.addrs (NDIRECT + 1)) (off / NINDIRECT) ≠ 0)
    (h5 : s.disk (s.disk (ip.addrs (NDIRECT + 1)) (off / NINDIRECT)) (off % NINDIRECT) ≠ 0) :
    ∃ s1, bmap ip bn s = .ok
        (s.disk (s.disk (ip.addrs (NDIRECT + 1)) (off / NINDIRECT)) (off % NINDIRECT), ip, s1) ∧
      s1.disk = s.disk ∧ s1.nextFree = s.nextFree ∧
      s1.events = s.events ++ [.bread (ip.addrs (NDIRECT + 1)),
        .bread (s.disk (ip.addrs (NDIRECT + 1)) (off / NINDIRECT)),
        .brelse (s.disk (ip.addrs (NDIRECT + 1)) (off / NINDIRECT)),
        .brelse (ip.addrs (NDIRECT + 1))] := by
  subst hbn
  unfold bmap
  rw [if_neg (by omega), if_neg (by omega), if_pos (by omega)]
  have e1 : NDIRECT + NINDIRECT + off - NDIRECT - NINDIRECT = off := by omega
  rw [e1]
  simp only [if_neg h3]
  dsimp only [emit]
  simp only [if_neg h4]
  simp only [if_neg h5]
  exact ⟨_, rfl, by simp, by simp, by simp⟩

lemma bmap_dbl_alloc_inner (ip : Inode) (bn : Nat) (s : FsState) (off : Nat)
    (hbn : bn = NDIRECT + NINDIRECT + off) (hoff : off < ND_INDIRECT)
    (h3 : ip.addrs (NDIRECT + 1) ≠ 0)
    (h4 : s.disk (ip.addrs (NDIRECT + 1)) (off / NINDIRECT) ≠ 0)
    (h5 : s.disk (s.disk (ip.addrs (NDIRECT + 1)) (off / NINDIRECT)) (off % NINDIRECT) = 0) :
    ∃ s1, bmap ip bn s = .ok (s.nextFree, ip, s1) ∧
      s1.disk (s.disk (ip.addrs (NDIRECT + 1)) (off / NINDIRECT)) (off % NINDIRECT) = s.nextFree ∧
      s1.events = s.events ++ [.bread (ip.addrs (NDIRECT + 1)),
        .bread (s.disk (ip.addrs (NDIRECT + 1)) (off / NINDIRECT)),
        .balloc s.nextFree,
        .log_write (s.disk (ip.addrs (NDIRECT + 1)) (off / NINDIRECT)),
        .brelse (s.disk (ip.addrs (NDIRECT + 1)) (off / NINDIRECT)),
        .brelse (ip.addrs (NDIRECT + 1))] ∧
      s1.nextFree = s.nextFree + 1 := by
  subst hbn
  unfold bmap
  rw [if_neg (by omega), if_neg (by omega), if_pos (by omega)]
  have e1 : NDIRECT + NINDIRECT + off - NDIRECT - NINDIRECT = off := by omega
  rw [e1]
  simp only [if_neg h3]
  dsimp only [emit]
  simp only [if_neg h4]
  simp only [if_pos h5]
  dsimp only [balloc, diskWrite]
  exact ⟨_, rfl, by simp, by simp, by simp⟩

lemma bmap_dbl_alloc_child (ip : Inode) (bn : Nat) (s : FsState) (off : Nat)
    (hbn : bn = NDIRECT + NINDIRECT + off) (hoff : off < ND_INDIRECT)
    (h3 : ip.addrs (NDIRECT + 1) ≠ 0) (hcol : ip.addrs (NDIRECT + 1) ≠ s.nextFree)
    (hcol2 : ip.addrs (NDIRECT + 1) ≠ s.nextFree + 1)
    (h4 : s.disk (ip.addrs (NDIRECT + 1)) (off / NINDIRECT) = 0) :
    ∃ s1, bmap ip bn s = .ok (s.nextFree + 1, ip, s1) ∧
      s1.disk (ip.addrs (NDIRECT + 1)) (off / NINDIRECT) = s.nextFree ∧
      s1.disk s.nextFree (off % NINDIRECT) = s.nextFree + 1 ∧
      s1.events = s.events ++ [.bread (ip.addrs (NDIRECT + 1)),
        .balloc s.nextFree, .log_write (ip.addrs (NDIRECT + 1)),
        .bread s.nextFree, .balloc (s.nextFree + 1), .log_write s.nextFree,
        .brelse s.nextFree, .brelse (ip.addrs (NDIRECT + 1))] ∧
      s1.nextFree = s.nextFree + 2 := by
  subst hbn
  unfold bmap
  rw [if_neg (by omega), if_neg (by omega), if_pos (by omega)]
  have e1 : NDIRECT + NINDIRECT + off - NDIRECT - NINDIRECT = off := by omega
  rw [e1]
  simp only [if_neg h3]
  dsimp only [emit]
  simp only [if_pos h4]
  dsimp only [balloc, diskWrite, emit]
  rw [if_pos (by simp [Ne.symm hcol])]
  dsimp only
  refine ⟨_, rfl, ?_, ?_, ?_, ?_⟩
  · simp [hcol, hcol2]
  · simp
  · simp
  · simp

lemma bmap_dbl_alloc_all (ip : Inode) (bn : Nat) (s : FsState) (off : Nat)
    (hbn : bn = NDIRECT + NINDIRECT + off) (hoff : off < ND_INDIRECT)
    (h3 : ip.addrs (NDIRECT + 1) = 0) :
    ∃ ip1 s1, bmap ip bn s = .ok (s.nextFree + 2, ip1, s1) ∧
      ip1.addrs (NDIRECT + 1) = s.nextFree ∧
      (∀ j, j ≠ NDIRECT + 1 → ip1.addrs j = ip.addrs j) ∧
      s1.disk s.nextFree (off / NINDIRECT) = s.nextFree + 1 ∧
      s1.disk (s.nextFree + 1) (off % NINDIRECT) = s.nextFree + 2 ∧
      s1.events = s.events ++ [.balloc s.nextFree, .bread s.nextFree,
        .balloc (s.nextFree + 1), .log_write s.nextFree,
        .bread (s.nextFree + 1), .balloc (s.nextFree + 2), .log_write (s.nextFree + 1),
        .brelse (s.nextFree + 1), .brelse s.nextFree] ∧
      s1.nextFree = s.nextFree + 3 := by
  subst hbn
  unfold bmap
  rw [if_neg (by omega), if_neg (by omega), if_pos (by omega)]
  have e1 : NDIRECT + NINDIRECT + off - NDIRECT - NINDIRECT = off := by omega
  rw [e1]
  have e2 : s.nextFree ≠ s.nextFree + 1 := by omega
  have e3 : s.nextFree + 1 ≠ s.nextFree := by omega
  have e4 : s.nextFree + 1 ≠ s.nextFree + 1 + 1 := by omega
  have e5 : s.nextFree ≠ s.nextFree + 1 + 1 := by omega
  simp only [if_pos h3]
  dsimp only [balloc, emit, diskWrite]
  rw [if_pos (by simp)]
  dsimp only
  rw [if_pos (by simp [e3])]
  dsimp only
  refine ⟨_, _, rfl, by simp [Function.update_same], ?_, ?_, ?_, ?_, ?_⟩
  · intro j hj
    simp [Function.update_noteq hj]
  · simp [e2, e5]
  · simp [e3, e4]
  · simp
  · simp

end Fs

namespace Fs

/-- C2: `resolve` (`bmap`) maps the logical index per range — direct table
entry (allocated on demand), single-indirect entry at `bn - NDIRECT`
(index block and entry allocated on demand, index block logged when a new
entry is written), double-indirect chain at `outer = off / NINDIRECT`,
`inner = off % NINDIRECT` (missing index blocks and the inner pointer
allocated on demand, each freshly populated index block logged, the inner
index block released before the outer one, as the event order shows) — and
panics beyond the double-indirect range. -/
theorem C2_bmap_resolves_all_ranges (ip : Inode) (bn : Nat) (s : FsState) :
    (bn < NDIRECT → ip.addrs bn ≠ 0 →
      bmap ip bn s = .ok (ip.addrs bn, ip, s)) ∧
    (bn < NDIRECT → ip.addrs bn = 0 →
      ∃ ip1 s1, bmap ip bn s = .ok (s.nextFree, ip1, s1) ∧
        ip1.addrs bn = s.nextFree ∧ (∀ j, j ≠ bn → ip1.addrs j = ip.addrs j) ∧
        s1.events = s.events ++ [.balloc s.nextFree] ∧ s1.nextFree = s.nextFree + 1) ∧
    (NDIRECT ≤ bn → bn < NDIRECT + NINDIRECT → ip.addrs NDIRECT ≠ 0 →
      s.disk (ip.addrs NDIRECT) (bn - NDIRECT) ≠ 0 →
      ∃ s1, bmap ip bn s = .ok (s.disk (ip.addrs NDIRECT) (bn - NDIRECT), ip, s1) ∧
        s1.disk = s.disk ∧ s1.nextFree = s.nextFree ∧
        s1.events = s.events ++ [.bread (ip.addrs NDIRECT), .brelse (ip.addrs NDIRECT)]) ∧
    (NDIRECT ≤ bn → bn < NDIRECT + NINDIRECT → ip.addrs NDIRECT ≠ 0 →
      s.disk (ip.addrs NDIRECT) (bn - NDIRECT) = 0 →
      ∃ s1, bmap ip bn s = .ok (s.nextFree, ip, s1) ∧
        s1.disk (ip.addrs NDIRECT) (bn - NDIRECT) = s.nextFree ∧
        s1.events = s.events ++ [.bread (ip.addrs NDIRECT), .balloc s.nextFree,
          .log_write (ip.addrs NDIRECT), .brelse (ip.addrs NDIRECT)] ∧
        s1.nextFree = s.nextFree + 1) ∧
    (NDIRECT ≤ bn → bn < NDIRECT + NINDIRECT → ip.addrs NDIRECT = 0 →
      ∃ ip1 s1, bmap ip bn s = .ok (s.nextFree + 1, ip1, s1) ∧
        ip1.addrs NDIRECT = s.nextFree ∧
        (∀ j, j ≠ NDIRECT → ip1.addrs j = ip.addrs j) ∧
        s1.disk s.nextFree (bn - NDIRECT) = s.nextFree + 1 ∧
        s1.events = s.events ++ [.balloc s.nextFree, .bread s.nextFree,
          .balloc (s.nextFree + 1), .log_write s.nextFree, .brelse s.nextFree] ∧
        s1.nextFree = s.nextFree + 2) ∧
    (∀ off, bn = NDIRECT + NINDIRECT + off → off < ND_INDIRECT →
      ip.addrs (NDIRECT + 1) ≠ 0 →
      s.disk (ip.addrs (NDIRECT + 1)) (off / NINDIRECT) ≠ 0 →
      s.disk (s.disk (ip.addrs (NDIRECT + 1)) (off / NINDIRECT)) (off % NINDIRECT) ≠ 0 →
      ∃ s1, bmap ip bn s = .ok
          (s.disk (s.disk (ip.addrs (NDIRECT + 1)) (off / NINDIRECT)) (off % NINDIRECT),
            ip, s1) ∧
        s1.disk = s.disk ∧ s1.nextFree = s.nextFree ∧
        s1.events = s.events ++ [.bread (ip.addrs (NDIRECT + 1)),
          .bread (s.disk (ip.addrs (NDIRECT + 1)) (off / NINDIRECT)),
          .brelse (s.disk (ip.addrs (NDIRECT + 1)) (off / NINDIRECT)),
          .brelse (ip.addrs (NDIRECT + 1))]) ∧
    (∀ off, bn = NDIRECT + NINDIRECT + off → off < ND_INDIRECT →
      ip.addrs (NDIRECT + 1) ≠ 0 →
      s.disk (ip.addrs (NDIRECT + 1)) (off / NINDIRECT) ≠ 0 →
      s.disk (s.disk (ip.addrs (NDIRECT + 1)) (off / NINDIRECT)) (off % NINDIRECT) = 0 →
      ∃ s1, bmap ip bn s = .ok (s.nextFree, ip, s1) ∧
        s1.disk (s.disk (ip.addrs (NDIRECT + 1)) (off / NINDIRECT)) (off % NINDIRECT)
          = s.nextFree ∧
        s1.events = s.events ++ [.bread (ip.addrs (NDIRECT + 1)),
          .bread (s.disk (ip.addrs (NDIRECT + 1)) (off / NINDIRECT)),
          .balloc s.nextFree,
          .log_write (s.disk (ip.addrs (NDIRECT + 1)) (off / NINDIRECT)),
          .brelse (s.disk (ip.addrs (NDIRECT + 1)) (off / NINDIRECT)),
          .brelse (ip.addrs (NDIRECT + 1))] ∧
        s1.nextFree = s.nextFree + 1) ∧
    (∀ off, bn = NDIRECT + NINDIRECT + off → off < ND_INDIRECT →
      ip.addrs (NDIRECT + 1) ≠ 0 → ip.addrs (NDIRECT + 1) ≠ s.nextFree →
      ip.addrs (NDIRECT + 1) ≠ s.nextFree + 1 →
      s.disk (ip.addrs (NDIRECT + 1)) (off / NINDIRECT) = 0 →
      ∃ s1, bmap ip bn s = .ok (s.nextFree + 1, ip, s1) ∧
        s1.disk (ip.addrs (NDIRECT + 1)) (off / NINDIRECT) = s.nextFree ∧
        s1.disk s.nextFree (off % NINDIRECT) = s.nextFree + 1 ∧
        s1.events = s.events ++ [.bread (ip.addrs (NDIRECT + 1)),
          .balloc s.nextFree, .log_write (ip.addrs (NDIRECT + 1)),
          .bread s.nextFree, .balloc (s.nextFree + 1), .log_write s.nextFree,
          .brelse s.nextFree, .brelse (ip.addrs (NDIRECT + 1))] ∧
        s1.nextFree = s.nextFree + 2) ∧
    (∀ off, bn = NDIRECT + NINDIRECT + off → off < ND_INDIRECT →
      ip.addrs (NDIRECT + 1) = 0 →
      ∃ ip1 s1, bmap ip bn s = .ok (s.nextFree + 2, ip1, s1) ∧
        ip1.addrs (NDIRECT + 1) = s.nextFree ∧
        (∀ j, j ≠ NDIRECT + 1 → ip1.addrs j = ip.addrs j) ∧
        s1.disk s.nextFree (off / NINDIRECT) = s.nextFree + 1 ∧
        s1.disk (s.nextFree + 1) (off % NINDIRECT) = s.nextFree + 2 ∧
        s1.events = s.events ++ [.balloc s.nextFree, .bread s.nextFree,
          .balloc (s.nextFree + 1), .log_write s.nextFree,
          .bread (s.nextFree + 1), .balloc (s.nextFree + 2), .log_write (s.nextFree + 1),
          .brelse (s.nextFree + 1), .brelse s.nextFree] ∧
        s1.nextFree = s.nextFree + 3) ∧
    (NDIRECT + NINDIRECT + ND_INDIRECT ≤ bn →
      bmap ip bn s = .error "bmap: out of range") :=
  ⟨fun h1 h2 => bmap_direct_hit ip bn s h1 h2,
   fun h1 h2 => bmap_direct_alloc ip bn s h1 h2,
   fun h1 h2 h3 h4 => bmap_single_hit ip bn s h1 h2 h3 h4,
   fun h1 h2 h3 h4 => bmap_single_alloc_entry ip bn s h1 h2 h3 h4,
   fun h1 h2 h3 => bmap_single_alloc_ind ip bn s h1 h2 h3,
   fun off hbn hoff h3 h4 h5 => bmap_dbl_hit ip bn s off hbn hoff h3 h4 h5,
   fun off hbn hoff h3 h4 h5 => bmap_dbl_alloc_inner ip bn s off hbn hoff h3 h4 h5,
   fun off hbn hoff h3 hc1 hc2 h4 => bmap_dbl_alloc_child ip bn s off hbn hoff h3 hc1 hc2 h4,
   fun off hbn hoff h3 => bmap_dbl_alloc_all ip bn s off hbn hoff h3,
   fun h => bmap_out_of_range ip bn s h⟩

/-- Witness for C2: on the concrete inode `c2Ip` (direct entry 0 mapped to
block 7), `resolve 0` is a pure direct lookup. -/
theorem C2_witness : bmap c2Ip 0 c6S = .ok (c2Ip.addrs 0, c2Ip, c6S) :=
  (C2_bmap_resolves_all_ranges c2Ip 0 c6S).1 (by decide) (by decide)

end Fs

namespace Cache

lemma findHit_eq_some {s : BState} {dev blockno id : Nat}
    (h : findHit s dev blockno = some id) :
    id ∈ s.buckets (hash blockno) ∧ (s.slots id).dev = dev ∧
    (s.slots id).blockno = blockno ∧ (s.slots id).refcnt ≠ -1 := by
  unfold findHit at h
  have hm := List.mem_of_find?_eq_some h
  have hp := List.find?_some h
  simp only [Bool.and_eq_true, beq_iff_eq, bne_iff_ne] at hp
  exact ⟨hm, hp.1.1, hp.1.2, hp.2⟩

lemma findHit_eq_none {s : BState} {dev blockno : Nat}
    (h : findHit s dev blockno = none) :
    ∀ id ∈ s.buckets (hash blockno),
      ¬((s.slots id).dev = dev ∧ (s.slots id).blockno = blockno ∧
        (s.slots id).refcnt ≠ -1) := by
  intro id hid hc
  unfold findHit at h
  have := List.find?_eq_none.mp h id hid
  simp only [Bool.and_eq_true, beq_iff_eq, bne_iff_ne] at this
  exact this ⟨⟨hc.1, hc.2.1⟩, hc.2.2⟩

lemma findFree_eq_some {s : BState} {bk id : Nat}
    (h : findFree s bk = some id) :
    id ∈ s.buckets bk ∧ (s.slots id).refcnt = 0 := by
  unfold findFree at h
  have hm := List.mem_of_find?_eq_some h
  have hp := List.find?_some h
  rw [List.mem_reverse] at hm
  simp only [beq_iff_eq] at hp
  exact ⟨hm, hp⟩

lemma mem_victimCands {s : BState} {buckno id : Nat} :
    id ∈ victimCands s buckno ↔
      ∃ i, i < BUCKETSIZE ∧ i ≠ buckno ∧ id ∈ s.buckets i := by
  unfold victimCands
  simp only [List.mem_flatten, List.mem_map, List.mem_filter, List.mem_range,
    List.mem_reverse, decide_eq_true_eq]
  constructor
  · rintro ⟨l, ⟨i, ⟨hi, hb⟩, rfl⟩, hmem⟩
    exact ⟨i, hi, hb, List.mem_reverse.mp hmem⟩
  · rintro ⟨i, hi, hb, hmem⟩
    exact ⟨(s.buckets i).reverse, ⟨i, ⟨hi, hb⟩, rfl⟩, List.mem_reverse.mpr hmem⟩

lemma svFold_spec (s : BState) (l : List Nat) (least : Nat) (best : Option Nat)
    (hgood : match best with
      | none => least = 4294967295
      | some id => (s.slots id).refcnt = 0 ∧ (s.slots id).ticks = least ∧
          least < 4294967295) :
    (match (l.foldl (svStep s) (least, best)).2 with
      | none => (l.foldl (svStep s) (least, best)).1 = 4294967295 ∧ best = none ∧
          ∀ id ∈ l, ¬((s.slots id).refcnt = 0 ∧ (s.slots id).ticks < 4294967295)
      | some id => (s.slots id).refcnt = 0 ∧
          (s.slots id).ticks = (l.foldl (svStep s) (least, best)).1 ∧
          (l.foldl (svStep s) (least, best)).1 < 4294967295 ∧
          (id ∈ l ∨ best = some id)) ∧
    (l.foldl (svStep s) (least, best)).1 ≤ least ∧
    (∀ id ∈ l, (s.slots id).refcnt = 0 →
      (l.foldl (svStep s) (least, best)).1 ≤ (s.slots id).ticks) := by
  induction l generalizing least best with
  | nil =>
      refine ⟨?_, le_refl _, by simp⟩
      simp only [List.foldl_nil]
      match best, hgood with
      | none, hg => exact ⟨hg, rfl, by simp⟩
      | some id, hg => exact ⟨hg.1, hg.2.1, hg.2.2, Or.inr rfl⟩
  | cons x xs ih =>
      rw [List.foldl_cons]
      by_cases hx : (s.slots x).refcnt = 0 ∧ (s.slots x).ticks < least
      · have hstep : svStep s (least, best) x = ((s.slots x).ticks, some x) := by
          unfold svStep
          rw [if_pos hx]
        rw [hstep]
        have hlt : (s.slots x).ticks < 4294967295 := by
          match best, hgood with
          | none, hg => rw [hg] at hx; exact hx.2
          | some id, hg => exact lt_trans hx.2 hg.2.2
        have ih2 := ih (s.slots x).ticks (some x) ⟨hx.1, rfl, hlt⟩
        obtain ⟨ihm, ihle, ihmin⟩ := ih2
        refine ⟨?_, ?_, ?_⟩
        · cases hres : (xs.foldl (svStep s) ((s.slots x).ticks, some x)).2 with
          | none =>
              rw [hres] at ihm
              exact absurd ihm.2.1 (by simp)
          | some id =>
              rw [hres] at ihm
              refine ⟨ihm.1, ihm.2.1, ihm.2.2.1, ?_⟩
              rcases ihm.2.2.2 with hin | heq
              · exact Or.inl (List.mem_cons_of_mem _ hin)
              · rw [Option.some_inj] at heq
                exact Or.inl (heq ▸ List.mem_cons_self x xs)
        · exact le_trans ihle (le_of_lt hx.2)
        · intro id hid hrc
          rcases List.mem_cons.mp hid with rfl | hin
          · exact ihle
          · exact ihmin id hin hrc
      · have hstep : svStep s (least, best) x = (least, best) := by
          unfold svStep
          rw [if_neg hx]
        rw [hstep]
        obtain ⟨ihm, ihle, ihmin⟩ := ih least best hgood
        refine ⟨?_, ihle, ?_⟩
        · cases hres : (xs.foldl (svStep s) (least, best)).2 with
          | none =>
              rw [hres] at ihm
              refine ⟨ihm.1, ihm.2.1, ?_⟩
              intro id hid
              rcases List.mem_cons.mp hid with rfl | hin
              · intro hc
                apply hx
                refine ⟨hc.1, ?_⟩
                have : least = 4294967295 := by
                  match best, hgood, ihm.2.1 with
                  | none, hg, _ => exact hg
                rw [this]
                exact hc.2
              · exact ihm.2.2 id hin
          | some id =>
              rw [hres] at ihm
              refine ⟨ihm.1, ihm.2.1, ihm.2.2.1, ?_⟩
              rcases ihm.2.2.2 with hin | heq
              · exact Or.inl (List.mem_cons_of_mem _ hin)
              · exact Or.inr heq
        · intro id hid hrc
          rcases List.mem_cons.mp hid with rfl | hin
          · have hnlt : ¬(s.slots id).ticks < least := fun hlt => hx ⟨hrc, hlt⟩
            exact le_trans ihle (not_lt.mp hnlt)
          · exact ihmin id hin hrc

end Cache

namespace Cache

lemma victimScan_none_iff (s : BState) (buckno : Nat) :
    (victimScan s buckno).2 = none ↔
      ∀ id ∈ victimCands s buckno,
        ¬((s.slots id).refcnt = 0 ∧ (s.slots id).ticks < 4294967295) := by
  have h := svFold_spec s (victimCands s buckno) 4294967295 none rfl
  unfold victimScan
  constructor
  · intro hn
    obtain ⟨hm, -, -⟩ := h
    rw [hn] at hm
    exact hm.2.2
  · intro hall
    obtain ⟨hm, -, -⟩ := h
    cases hres : ((victimCands s buckno).foldl (svStep s) (4294967295, none)).2 with
    | none => rfl
    | some id =>
        rw [hres] at hm
        rcases hm.2.2.2 with hin | heq
        · exact absurd ⟨hm.1, hm.2.1 ▸ hm.2.2.1⟩ (hall id hin)
        · exact absurd heq (by simp)

lemma victimScan_some {s : BState} {buckno id : Nat}
    (h : (victimScan s buckno).2 = some id) :
    id ∈ victimCands s buckno ∧ (s.slots id).refcnt = 0 ∧
    (s.slots id).ticks < 4294967295 ∧
    ∀ id2 ∈ victimCands s buckno, (s.slots id2).refcnt = 0 →
      (s.slots id).ticks ≤ (s.slots id2).ticks := by
  have hh := svFold_spec s (victimCands s buckno) 4294967295 none rfl
  obtain ⟨hm, hle, hmin⟩ := hh
  unfold victimScan at h
  rw [h] at hm
  refine ⟨?_, hm.1, hm.2.1 ▸ hm.2.2.1, ?_⟩
  · rcases hm.2.2.2 with hin | heq
    · exact hin
    · exact absurd heq (by simp)
  · intro id2 hid2 hrc
    rw [hm.2.1]
    exact hmin id2 hid2 hrc

lemma select_victim_ok {buckno : Nat} {s s1 : BState} {id : Nat}
    (h : select_victim buckno s = .ok (some (s1, id))) :
    (victimScan s buckno).2 = some id ∧
    s1 = {s with slots :=
      Function.update s.slots id {(s.slots id) with refcnt := -1}} := by
  unfold select_victim at h
  cases hscan : (victimScan s buckno).2 with
  | none => rw [hscan] at h; exact absurd h (by simp)
  | some j =>
      rw [hscan] at h
      dsimp only at h
      by_cases hrc : (s.slots j).refcnt ≠ 0
      · rw [if_pos hrc] at h
        exact absurd h (by simp)
      · rw [if_neg hrc] at h
        simp only [Except.ok.injEq, Option.some.injEq, Prod.mk.injEq] at h
        exact ⟨by rw [h.2], by rw [← h.1, h.2]⟩

lemma select_victim_fatal_iff (buckno : Nat) (s : BState) :
    isFatal (select_victim buckno s) = true ↔
      ∀ id ∈ victimCands s buckno,
        ¬((s.slots id).refcnt = 0 ∧ (s.slots id).ticks < 4294967295) := by
  rw [← victimScan_none_iff]
  unfold select_victim
  cases hscan : (victimScan s buckno).2 with
  | none => simp [isFatal]
  | some j =>
      have hj := victimScan_some hscan
      dsimp only
      rw [if_neg (by simp [hj.2.1])]
      simp [isFatal]

lemma select_victim_no_retry (buckno : Nat) (s : BState) :
    select_victim buckno s ≠ .ok none := by
  unfold select_victim
  cases hscan : (victimScan s buckno).2 with
  | none => simp
  | some j =>
      have hj := victimScan_some hscan
      dsimp only
      rw [if_neg (by simp [hj.2.1])]
      simp

end Cache

namespace Cache

/-- C4 (amended): `select_victim` scans every bucket other than the
requesting one (`victimCands`); among slots with `refcnt == 0` *and
last-access tick below the scan's initial bound `0xffffffff`* it claims the
one with the smallest tick, marking it with the reservation sentinel `-1` and
touching nothing else; it panics exactly when no such slot exists (a
`refcnt == 0` slot whose tick equals `0xffffffff` is not selectable, the
corner the original claim misses); in the sequential embedding the re-check
under the candidate's bucket lock always passes, so the "no victim, retry"
return is never produced. -/
theorem C4_select_victim_spec (buckno : Nat) (s : BState) :
    (∀ id, id ∈ victimCands s buckno ↔
      ∃ i, i < BUCKETSIZE ∧ i ≠ buckno ∧ id ∈ s.buckets i) ∧
    (isFatal (select_victim buckno s) = true ↔
      ∀ id ∈ victimCands s buckno,
        ¬((s.slots id).refcnt = 0 ∧ (s.slots id).ticks < 4294967295)) ∧
    (select_victim buckno s ≠ .ok none) ∧
    (∀ s1 id, select_victim buckno s = .ok (some (s1, id)) →
      id ∈ victimCands s buckno ∧ (s.slots id).refcnt = 0 ∧
      (s.slots id).ticks < 4294967295 ∧
      (∀ id2 ∈ victimCands s buckno, (s.slots id2).refcnt = 0 →
        (s.slots id).ticks ≤ (s.slots id2).ticks) ∧
      (s1.slots id).refcnt = -1 ∧ (∀ j, j ≠ id → s1.slots j = s.slots j) ∧
      s1.buckets = s.buckets ∧ s1.held = s.held ∧ s1.clock = s.clock) := by
  refine ⟨fun id => mem_victimCands, select_victim_fatal_iff buckno s,
    select_victim_no_retry buckno s, ?_⟩
  intro s1 id h
  obtain ⟨hscan, rfl⟩ := select_victim_ok h
  have hv := victimScan_some hscan
  refine ⟨hv.1, hv.2.1, hv.2.2.1, hv.2.2.2, ?_, ?_, rfl, rfl, rfl⟩
  · show (Function.update s.slots id _ id).refcnt = -1
    rw [Function.update_same]
  · intro j hj
    show Function.update s.slots id _ j = s.slots j
    rw [Function.update_noteq hj]

set_option maxRecDepth 8000 in
/-- C4 counterexample: in `c4S` a slot with `refcnt == 0` does exist in a
scanned bucket (slot 9, bucket 1), yet `select_victim` panics, because that
slot's tick is `0xffffffff` and the scan's strict `<` against the initial
`least = 0xffffffff` can never select it — refuting "if no such slot exists
in any scanned shard it aborts ... otherwise it selects the smallest-tick
free slot" as stated. -/
theorem C4_counterexample :
    (c4S.slots 9).refcnt = 0 ∧ (c4S.slots 9).ticks = 4294967295 ∧
    9 ∈ c4S.buckets 1 ∧ (1 : Nat) ≠ 0 ∧
    isFatal (select_victim 0 c4S) = true := by decide

set_option maxRecDepth 8000 in
/-- Witness for C4 at the initial cache: `select_victim 0` claims slot 5 (the
tail of bucket 1), which had `refcnt = 0`, and marks it `-1`. -/
theorem C4_witness :
    (initState.slots 5).refcnt = 0 ∧ (c4WS.slots 5).refcnt = -1 :=
  ⟨((C4_select_victim_spec 0 initState).2.2.2 c4WS 5 rfl).2.1,
   ((C4_select_victim_spec 0 initState).2.2.2 c4WS 5 rfl).2.2.2.2.1⟩

end Cache

namespace Cache

lemma bget_ok_cases {dev blockno : Nat} {s s1 : BState} {id : Nat} {p : GetPath}
    (h : bget dev blockno s = .ok (s1, id, p)) :
    (p = .hit ∧ findHit s dev blockno = some id ∧ s.held id = false ∧
      s1 = {s with
        slots := Function.update s.slots id
          {(s.slots id) with refcnt := (s.slots id).refcnt + 1, ticks := s.clock},
        held := Function.update s.held id true}) ∨
    (p = .recycle ∧ findHit s dev blockno = none ∧
      findFree s (hash blockno) = some id ∧ s.held id = false ∧
      s1 = {s with
        slots := Function.update s.slots id
          {(s.slots id) with dev := dev, blockno := blockno, valid := false, refcnt := 1},
        held := Function.update s.held id true,
        assigned := Function.update s.assigned id true}) ∨
    (p = .steal ∧ findHit s dev blockno = none ∧ findFree s (hash blockno) = none ∧
      (victimScan s (hash blockno)).2 = some id ∧ s.held id = false ∧
      (s.slots id).refcnt = 0 ∧
      s1 = {s with
        slots := Function.update s.slots id ⟨dev, blockno, false, 1, s.clock⟩,
        buckets := fun i => if i = hash blockno then ((s.buckets i).erase id) ++ [id]
          else (s.buckets i).erase id,
        held := Function.update s.held id true,
        assigned := Function.update s.assigned id true}) := by
  unfold bget at h
  cases hf : findHit s dev blockno with
  | some j =>
      rw [hf] at h
      dsimp only at h
      by_cases hh : s.held j = true
      · rw [if_pos hh] at h
        exact absurd h (by simp)
      · rw [if_neg hh] at h
        simp only [Except.ok.injEq, Prod.mk.injEq] at h
        obtain ⟨hs, hj, hp⟩ := h
        subst hj
        subst hp
        exact Or.inl ⟨rfl, rfl, by simpa using hh, hs.symm⟩
  | none =>
      rw [hf] at h
      dsimp only at h
      cases hff : findFree s (hash blockno) with
      | some j =>
          rw [hff] at h
          dsimp only at h
          by_cases hh : s.held j = true
          · rw [if_pos hh] at h
            exact absurd h (by simp)
          · rw [if_neg hh] at h
            simp only [Except.ok.injEq, Prod.mk.injEq] at h
            obtain ⟨hs, hj, hp⟩ := h
            subst hj
            subst hp
            exact Or.inr (Or.inl ⟨rfl, rfl, rfl, by simpa using hh, hs.symm⟩)
      | none =>
          rw [hff] at h
          dsimp only at h
          cases hsv : select_victim (hash blockno) s with
          | error e =>
              rw [hsv] at h
              exact absurd h (by simp)
          | ok o =>
              cases o with
              | none =>
                  rw [hsv] at h
                  exact absurd h (by simp)
              | some pr =>
                  obtain ⟨sv, j⟩ := pr
                  rw [hsv] at h
                  dsimp only at h
                  obtain ⟨hscan, hsveq⟩ := select_victim_ok hsv
                  have hrc : (s.slots j).refcnt = 0 := (victimScan_some hscan).2.1
                  subst hsveq
                  dsimp only at h
                  by_cases hh : s.held j = true
                  · rw [if_pos hh] at h
                    exact absurd h (by simp)
                  · rw [if_neg hh] at h
                    simp only [Except.ok.injEq, Prod.mk.injEq] at h
                    obtain ⟨hs, hj, hp⟩ := h
                    subst hj
                    subst hp
                    refine Or.inr (Or.inr ⟨rfl, rfl, rfl, hscan, by simpa using hh, hrc, ?_⟩)
                    rw [← hs]
                    simp only [Function.update_idem]


end Cache

namespace Cache

/-- C9: when `bget` misses and recycles a `refcnt == 0` slot inside the
target bucket, it writes only `dev`, `blockno`, `valid := false` and
`refcnt := 1`; every other slot field — in particular the last-access
`ticks` — is left as recorded for the evicted previous identity, no other
slot changes and no list moves; by contrast both the cache-hit path and the
cross-bucket steal path set `ticks` to the current clock. -/
theorem C9_recycle_updates_identity_only (dev blockno : Nat) (s s1 : BState)
    (id : Nat) (p : GetPath) (h : bget dev blockno s = .ok (s1, id, p)) :
    (p = .recycle →
      s1.slots id =
        {(s.slots id) with dev := dev, blockno := blockno, valid := false, refcnt := 1} ∧
      (s1.slots id).ticks = (s.slots id).ticks ∧
      (∀ j, j ≠ id → s1.slots j = s.slots j) ∧
      (∀ i, s1.buckets i = s.buckets i) ∧ s1.clock = s.clock) ∧
    (p = .hit → (s1.slots id).ticks = s.clock) ∧
    (p = .steal → (s1.slots id).ticks = s.clock) := by
  rcases bget_ok_cases h with ⟨hp, hf, hh, rfl⟩ | ⟨hp, hf, hff, hh, rfl⟩ |
    ⟨hp, hf, hff, hscan, hh, hrc, rfl⟩
  · subst hp
    refine ⟨fun hc => GetPath.noConfusion hc, fun _ => ?_, fun hc => GetPath.noConfusion hc⟩
    show (Function.update s.slots id _ id).ticks = s.clock
    rw [Function.update_same]
  · subst hp
    refine ⟨fun _ => ⟨?_, ?_, ?_, fun i => rfl, rfl⟩,
      fun hc => GetPath.noConfusion hc, fun hc => GetPath.noConfusion hc⟩
    · show Function.update s.slots id _ id = _
      rw [Function.update_same]
    · show (Function.update s.slots id _ id).ticks = _
      rw [Function.update_same]
    · intro j hj
      show Function.update s.slots id _ j = s.slots j
      rw [Function.update_noteq hj]
  · subst hp
    refine ⟨fun hc => GetPath.noConfusion hc, fun hc => GetPath.noConfusion hc, fun _ => ?_⟩
    show (Function.update s.slots id _ id).ticks = s.clock
    rw [Function.update_same]

/-- Witness for C9: `bget 1 0` on the initial cache takes the recycle path on
slot 0, and the recycled slot keeps its old tick. -/
theorem C9_witness :
    bget 1 0 initState = .ok (c9S, 0, .recycle) ∧
    (c9S.slots 0).ticks = (initState.slots 0).ticks :=
  ⟨rfl, ((C9_recycle_updates_identity_only 1 0 initState c9S 0 .recycle rfl).1 rfl).2.1⟩

end Cache

namespace Cache

/-- C5 (amended): `brelse` panics when the checkout lock is not held, and when
`refcnt` is already the eviction sentinel `-1`; but releasing a slot whose
`refcnt` is already 0 is *not* detected — the decrement silently produces
`-1`.  `bunpin` performs no check at all and decrements unconditionally, so
neither "already 0" nor "already -1" aborts there.  No other
refcnt-decrementing check exists. -/
theorem C5_decrement_checks (s : BState) (id : Nat) :
    (s.held id = false → brelse id s = .error (.fatal "brelse")) ∧
    (s.held id = true → (s.slots id).refcnt = -1 →
      brelse id s = .error (.fatal "brelse: refcnt == -1")) ∧
    (s.held id = true → (s.slots id).refcnt ≠ -1 →
      ∃ s1, brelse id s = .ok s1 ∧
        (s1.slots id).refcnt = (s.slots id).refcnt - 1 ∧ s1.held id = false) ∧
    ((bunpin id s).slots id).refcnt = (s.slots id).refcnt - 1 := by
  refine ⟨?_, ?_, ?_, ?_⟩
  · intro hh
    unfold brelse
    rw [if_neg (by simp [hh])]
  · intro hh hrc
    unfold brelse
    rw [if_pos hh]
    dsimp only
    rw [if_pos hrc]
  · intro hh hrc
    unfold brelse
    rw [if_pos hh]
    dsimp only
    rw [if_neg hrc]
    by_cases hz : (s.slots id).refcnt - 1 = 0
    · rw [if_pos hz]
      refine ⟨_, rfl, ?_, ?_⟩
      · show (Function.update s.slots id _ id).refcnt = _
        rw [Function.update_same]
      · show Function.update s.held id false id = false
        rw [Function.update_same]
    · rw [if_neg hz]
      refine ⟨_, rfl, ?_, ?_⟩
      · show (Function.update s.slots id _ id).refcnt = _
        rw [Function.update_same]
      · show Function.update s.held id false id = false
        rw [Function.update_same]
  · unfold bunpin
    show (Function.update s.slots id _ id).refcnt = _
    rw [Function.update_same]

/-- C5 counterexample: releasing a held slot whose `refcnt` is already 0 does
not abort — it silently drives `refcnt` to `-1`; and `bunpin` applied to a
slot already at the sentinel `-1` does not abort either, producing `-2`. -/
theorem C5_counterexample :
    (c5S.slots 0).refcnt = 0 ∧
    ((brelse 0 c5S).toOption.map (fun s => (s.slots 0).refcnt) = some (-1)) ∧
    (c5T.slots 0).refcnt = -1 ∧
    ((bunpin 0 c5T).slots 0).refcnt = -2 := by decide

/-- Witness for C5 at the initial cache: releasing an unheld slot panics with
the C code's `"brelse"` message. -/
theorem C5_witness : brelse 0 initState = .error (.fatal "brelse") :=
  (C5_decrement_checks initState 0).1 rfl

end Cache

namespace Cache

lemma inv_init : Inv initState := by
  refine ⟨fun id => ?_, fun id h => ?_, fun id h => ?_, fun a b h1 h2 => ?_⟩
  · simp [initState, buf0]
  · simp [initState] at h
  · simp [initState] at h
  · simp [initState] at h1

lemma inv_tick {s : BState} (h : Inv s) : Inv (tick s) := h

lemma refcnt_ne_neg_one {s : BState} (h0 : ∀ id, 0 ≤ (s.slots id).refcnt) (id : Nat) :
    (s.slots id).refcnt ≠ -1 := by
  have := h0 id
  omega

lemma inv_bget {dev blockno : Nat} {s s1 : BState} {id : Nat} {p : GetPath}
    (hInv : Inv s) (h : bget dev blockno s = .ok (s1, id, p)) : Inv s1 := by
  obtain ⟨h0, h1, h2, h3⟩ := hInv
  rcases bget_ok_cases h with ⟨hp, hf, hh, rfl⟩ | ⟨hp, hf, hff, hh, rfl⟩ |
    ⟨hp, hf, hff, hscan, hh, hrc, rfl⟩
  · -- hit: refcnt+1, ticks refreshed, lock taken; identity and lists unchanged
    refine ⟨fun j => ?_, fun j hj => ?_, fun j hj => ?_, fun j1 j2 ha1 ha2 hd hb => ?_⟩
    · by_cases hje : j = id
      · subst hje
        simp only [Function.update_same]
        have := h0 j
        omega
      · simp only [Function.update_noteq hje]
        exact h0 j
    · by_cases hje : j = id
      · subst hje
        simp only [Function.update_same]
        have := h0 j
        omega
      · simp only [Function.update_noteq hje] at hj ⊢
        exact h1 j hj
    · by_cases hje : j = id
      · subst hje
        simp only [Function.update_same]
        exact h2 j hj
      · simp only [Function.update_noteq hje]
        exact h2 j hj
    · have hdev : ∀ j, (Function.update s.slots id
          {(s.slots id) with refcnt := (s.slots id).refcnt + 1, ticks := s.clock} j).dev
          = (s.slots j).dev := by
        intro j
        by_cases hje : j = id
        · subst hje
          rw [Function.update_same]
        · rw [Function.update_noteq hje]
      have hblk : ∀ j, (Function.update s.slots id
          {(s.slots id) with refcnt := (s.slots id).refcnt + 1, ticks := s.clock} j).blockno
          = (s.slots j).blockno := by
        intro j
        by_cases hje : j = id
        · subst hje
          rw [Function.update_same]
        · rw [Function.update_noteq hje]
      refine h3 j1 j2 ha1 ha2 ?_ ?_
      · rw [← hdev j1, ← hdev j2]
        exact hd
      · rw [← hblk j1, ← hblk j2]
        exact hb
  · -- local recycle: fresh identity, lists untouched
    have hmem := findFree_eq_some hff
    refine ⟨fun j => ?_, fun j hj => ?_, fun j hj => ?_, fun j1 j2 ha1 ha2 hd hb => ?_⟩
    · by_cases hje : j = id
      · subst hje
        simp [Function.update_same]
      · simp only [Function.update_noteq hje]
        exact h0 j
    · by_cases hje : j = id
      · subst hje
        simp [Function.update_same]
      · simp only [Function.update_noteq hje] at hj ⊢
        exact h1 j hj
    · by_cases hje : j = id
      · subst hje
        simp only [Function.update_same]
        exact hmem.1
      · simp only [Function.update_noteq hje] at hj ⊢
        exact h2 j hj
    · by_cases e1 : j1 = id <;> by_cases e2 : j2 = id
      · rw [e1, e2]
      · exfalso
        subst e1
        simp only [Function.update_same, Function.update_noteq e2] at hd hb ha2
        have hmem2 : j2 ∈ s.buckets (hash blockno) := by
          have := h2 j2 ha2
          rw [← hb] at this
          exact this
        exact findHit_eq_none hf j2 hmem2 ⟨hd.symm, hb.symm, refcnt_ne_neg_one h0 j2⟩
      · exfalso
        subst e2
        simp only [Function.update_same, Function.update_noteq e1] at hd hb ha1
        have hmem1 : j1 ∈ s.buckets (hash blockno) := by
          have := h2 j1 ha1
          rw [hb] at this
          exact this
        exact findHit_eq_none hf j1 hmem1 ⟨hd, hb, refcnt_ne_neg_one h0 j1⟩
      · simp only [Function.update_noteq e1, Function.update_noteq e2] at hd hb ha1 ha2
        exact h3 j1 j2 ha1 ha2 hd hb
  · -- cross-bucket steal: victim unlinked from its list, relinked at the back
    refine ⟨fun j => ?_, fun j hj => ?_, fun j hj => ?_, fun j1 j2 ha1 ha2 hd hb => ?_⟩
    · by_cases hje : j = id
      · subst hje
        simp [Function.update_same]
      · simp only [Function.update_noteq hje]
        exact h0 j
    · by_cases hje : j = id
      · subst hje
        simp [Function.update_same]
      · simp only [Function.update_noteq hje] at hj ⊢
        exact h1 j hj
    · by_cases hje : j = id
      · subst hje
        simp [Function.update_same]
      · simp only [Function.update_noteq hje] at hj ⊢
        have hmem := h2 j hj
        by_cases hbk : hash (s.slots j).blockno = hash blockno
        · simp only [hbk, if_pos]
          refine List.mem_append_left _ ?_
          rw [List.mem_erase_of_ne hje]
          rw [← hbk]
          exact hmem
        · simp only [if_neg hbk]
          rw [List.mem_erase_of_ne hje]
          exact hmem
    · by_cases e1 : j1 = id <;> by_cases e2 : j2 = id
      · rw [e1, e2]
      · exfalso
        subst e1
        simp only [Function.update_same, Function.update_noteq e2] at hd hb ha2
        have hmem2 : j2 ∈ s.buckets (hash blockno) := by
          have := h2 j2 ha2
          rw [← hb] at this
          exact this
        exact findHit_eq_none hf j2 hmem2 ⟨hd.symm, hb.symm, refcnt_ne_neg_one h0 j2⟩
      · exfalso
        subst e2
        simp only [Function.update_same, Function.update_noteq e1] at hd hb ha1
        have hmem1 : j1 ∈ s.buckets (hash blockno) := by
          have := h2 j1 ha1
          rw [hb] at this
          exact this
        exact findHit_eq_none hf j1 hmem1 ⟨hd, hb, refcnt_ne_neg_one h0 j1⟩
      · simp only [Function.update_noteq e1, Function.update_noteq e2] at hd hb ha1 ha2
        exact h3 j1 j2 ha1 ha2 hd hb

end Cache

namespace Cache

lemma inv_valid_update {s : BState} (hInv : Inv s) (id : Nat) :
    Inv {s with slots :=
      Function.update s.slots id {(s.slots id) with valid := true}} := by
  obtain ⟨h0, h1, h2, h3⟩ := hInv
  have hdev : ∀ j, (Function.update s.slots id
      {(s.slots id) with valid := true} j).dev = (s.slots j).dev := by
    intro j
    by_cases hje : j = id
    · subst hje
      rw [Function.update_same]
    · rw [Function.update_noteq hje]
  have hblk : ∀ j, (Function.update s.slots id
      {(s.slots id) with valid := true} j).blockno = (s.slots j).blockno := by
    intro j
    by_cases hje : j = id
    · subst hje
      rw [Function.update_same]
    · rw [Function.update_noteq hje]
  have hrc : ∀ j, (Function.update s.slots id
      {(s.slots id) with valid := true} j).refcnt = (s.slots j).refcnt := by
    intro j
    by_cases hje : j = id
    · subst hje
      rw [Function.update_same]
    · rw [Function.update_noteq hje]
  refine ⟨fun j => ?_, fun j hj => ?_, fun j hj => ?_, fun j1 j2 ha1 ha2 hd hb => ?_⟩
  · rw [hrc j]
    exact h0 j
  · rw [hrc j]
    exact h1 j hj
  · show j ∈ s.buckets (hash _)
    rw [hblk j]
    exact h2 j hj
  · refine h3 j1 j2 ha1 ha2 ?_ ?_
    · rw [← hdev j1, ← hdev j2]
      exact hd
    · rw [← hblk j1, ← hblk j2]
      exact hb

lemma inv_bread {dev blockno : Nat} {s s1 : BState} {id : Nat} {p : GetPath}
    (hInv : Inv s) (h : bread dev blockno s = .ok (s1, id, p)) : Inv s1 := by
  unfold bread at h
  cases hg : bget dev blockno s with
  | error e =>
      rw [hg] at h
      exact absurd h (by simp)
  | ok r =>
      obtain ⟨sg, idg, pg⟩ := r
      rw [hg] at h
      dsimp only at h
      by_cases hv : (sg.slots idg).valid = true
      · rw [if_pos hv] at h
        simp only [Except.ok.injEq, Prod.mk.injEq] at h
        rw [← h.1]
        exact inv_bget hInv hg
      · rw [if_neg hv] at h
        simp only [Except.ok.injEq, Prod.mk.injEq] at h
        rw [← h.1]
        exact inv_valid_update (inv_bget hInv hg) idg

lemma inv_brelse {id : Nat} {s s1 : BState} (hInv : Inv s)
    (h : brelse id s = .ok s1) : Inv s1 := by
  obtain ⟨h0, h1, h2, h3⟩ := hInv
  unfold brelse at h
  by_cases hh : s.held id = true
  · rw [if_pos hh] at h
    dsimp only at h
    by_cases hrc : (s.slots id).refcnt = -1
    · rw [if_pos hrc] at h
      exact absurd h (by simp)
    · rw [if_neg hrc] at h
      have hge : 1 ≤ (s.slots id).refcnt := h1 id hh
      have hdev : ∀ j, (Function.update s.slots id
          {(s.slots id) with refcnt := (s.slots id).refcnt - 1} j).dev
          = (s.slots j).dev := by
        intro j
        by_cases hje : j = id
        · subst hje
          rw [Function.update_same]
        · rw [Function.update_noteq hje]
      have hblk : ∀ j, (Function.update s.slots id
          {(s.slots id) with refcnt := (s.slots id).refcnt - 1} j).blockno
          = (s.slots j).blockno := by
        intro j
        by_cases hje : j = id
        · subst hje
          rw [Function.update_same]
        · rw [Function.update_noteq hje]
      have hrcf : ∀ j, j ≠ id → (Function.update s.slots id
          {(s.slots id) with refcnt := (s.slots id).refcnt - 1} j).refcnt
          = (s.slots j).refcnt := by
        intro j hje
        rw [Function.update_noteq hje]
      by_cases hz : (s.slots id).refcnt - 1 = 0
      · rw [if_pos hz] at h
        simp only [Except.ok.injEq] at h
        rw [← h]
        refine ⟨fun j => ?_, fun j hj => ?_, fun j hj => ?_,
          fun j1 j2 ha1 ha2 hd hb => ?_⟩
        · by_cases hje : j = id
          · subst hje
            simp only [Function.update_same]
            omega
          · rw [hrcf j hje]
            exact h0 j
        · by_cases hje : j = id
          · subst hje
            simp only [Function.update_same] at hj
            exact absurd hj (by simp)
          · simp only [Function.update_noteq hje] at hj
            rw [hrcf j hje]
            exact h1 j hj
        · show j ∈ _
          by_cases hje : j = id
          · subst hje
            rw [hblk j]
            dsimp only
            rw [if_pos rfl]
            exact List.mem_cons_self _ _
          · rw [hblk j]
            have hmem := h2 j hj
            dsimp only
            by_cases hbk : hash (s.slots j).blockno = hash (s.slots id).blockno
            · simp only [hbk, if_pos]
              exact List.mem_cons_of_mem _ ((List.mem_erase_of_ne hje).mpr
                (by rw [← hbk]; exact hmem))
            · simp only [if_neg hbk]
              exact (List.mem_erase_of_ne hje).mpr hmem
        · refine h3 j1 j2 ha1 ha2 ?_ ?_
          · rw [← hdev j1, ← hdev j2]
            exact hd
          · rw [← hblk j1, ← hblk j2]
            exact hb
      · rw [if_neg hz] at h
        simp only [Except.ok.injEq] at h
        rw [← h]
        refine ⟨fun j => ?_, fun j hj => ?_, fun j hj => ?_,
          fun j1 j2 ha1 ha2 hd hb => ?_⟩
        · by_cases hje : j = id
          · subst hje
            simp only [Function.update_same]
            omega
          · rw [hrcf j hje]
            exact h0 j
        · by_cases hje : j = id
          · subst hje
            simp only [Function.update_same] at hj
            exact absurd hj (by simp)
          · simp only [Function.update_noteq hje] at hj
            rw [hrcf j hje]
            exact h1 j hj
        · show j ∈ _
          rw [hblk j]
          exact h2 j hj
        · refine h3 j1 j2 ha1 ha2 ?_ ?_
          · rw [← hdev j1, ← hdev j2]
            exact hd
          · rw [← hblk j1, ← hblk j2]
            exact hb
  · rw [if_neg hh] at h
    exact absurd h (by simp)

lemma inv_bpin {s : BState} (hInv : Inv s) (id : Nat) : Inv (bpin id s) := by
  obtain ⟨h0, h1, h2, h3⟩ := hInv
  unfold bpin
  have hdev : ∀ j, (Function.update s.slots id
      {(s.slots id) with refcnt := (s.slots id).refcnt + 1} j).dev
      = (s.slots j).dev := by
    intro j
    by_cases hje : j = id
    · subst hje
      rw [Function.update_same]
    · rw [Function.update_noteq hje]
  have hblk : ∀ j, (Function.update s.slots id
      {(s.slots id) with refcnt := (s.slots id).refcnt + 1} j).blockno
      = (s.slots j).blockno := by
    intro j
    by_cases hje : j = id
    · subst hje
      rw [Function.update_same]
    · rw [Function.update_noteq hje]
  refine ⟨fun j => ?_, fun j hj => ?_, fun j hj => ?_, fun j1 j2 ha1 ha2 hd hb => ?_⟩
  · by_cases hje : j = id
    · subst hje
      simp only [Function.update_same]
      have := h0 j
      omega
    · simp only [Function.update_noteq hje]
      exact h0 j
  · by_cases hje : j = id
    · subst hje
      simp only [Function.update_same]
      have := h0 j
      omega
    · simp only [Function.update_noteq hje]
      exact h1 j hj
  · show j ∈ _
    rw [hblk j]
    exact h2 j hj
  · refine h3 j1 j2 ha1 ha2 ?_ ?_
    · rw [← hdev j1, ← hdev j2]
      exact hd
    · rw [← hblk j1, ← hblk j2]
      exact hb

lemma inv_bunpin {s : BState} {id : Nat} (hInv : Inv s)
    (hge : 1 ≤ (s.slots id).refcnt) (hh : s.held id = false) :
    Inv (bunpin id s) := by
  obtain ⟨h0, h1, h2, h3⟩ := hInv
  unfold bunpin
  have hdev : ∀ j, (Function.update s.slots id
      {(s.slots id) with refcnt := (s.slots id).refcnt - 1} j).dev
      = (s.slots j).dev := by
    intro j
    by_cases hje : j = id
    · subst hje
      rw [Function.update_same]
    · rw [Function.update_noteq hje]
  have hblk : ∀ j, (Function.update s.slots id
      {(s.slots id) with refcnt := (s.slots id).refcnt - 1} j).blockno
      = (s.slots j).blockno := by
    intro j
    by_cases hje : j = id
    · subst hje
      rw [Function.update_same]
    · rw [Function.update_noteq hje]
  refine ⟨fun j => ?_, fun j hj => ?_, fun j hj => ?_, fun j1 j2 ha1 ha2 hd hb => ?_⟩
  · by_cases hje : j = id
    · subst hje
      simp only [Function.update_same]
      omega
    · simp only [Function.update_noteq hje]
      exact h0 j
  · by_cases hje : j = id
    · subst hje
      rw [hh] at hj
      exact absurd hj (by simp)
    · simp only [Function.update_noteq hje]
      exact h1 j hj
  · show j ∈ _
    rw [hblk j]
    exact h2 j hj
  · refine h3 j1 j2 ha1 ha2 ?_ ?_
    · rw [← hdev j1, ← hdev j2]
      exact hd
    · rw [← hblk j1, ← hblk j2]
      exact hb

lemma inv_step {s s1 : BState} {op : Op} (hInv : Inv s)
    (h : step s op = some s1) : Inv s1 := by
  cases op with
  | get d n =>
      unfold step at h
      dsimp only at h
      cases hg : bget d n s with
      | error e => rw [hg] at h; exact absurd h (by simp)
      | ok r =>
          obtain ⟨sg, idg, pg⟩ := r
          rw [hg] at h
          simp only [Option.some.injEq] at h
          rw [← h]
          exact inv_tick (inv_bget hInv hg)
  | read d n =>
      unfold step at h
      dsimp only at h
      cases hg : bread d n s with
      | error e => rw [hg] at h; exact absurd h (by simp)
      | ok r =>
          obtain ⟨sg, idg, pg⟩ := r
          rw [hg] at h
          simp only [Option.some.injEq] at h
          rw [← h]
          exact inv_tick (inv_bread hInv hg)
  | release id =>
      unfold step at h
      dsimp only at h
      cases hg : brelse id s with
      | error e => rw [hg] at h; exact absurd h (by simp)
      | ok sg =>
          rw [hg] at h
          simp only [Option.some.injEq] at h
          rw [← h]
          exact inv_tick (inv_brelse hInv hg)
  | pin id =>
      unfold step at h
      dsimp only at h
      by_cases hh : s.held id = true
      · rw [if_pos hh] at h
        simp only [Option.some.injEq] at h
        rw [← h]
        exact inv_tick (inv_bpin hInv id)
      · rw [if_neg hh] at h
        exact absurd h (by simp)
  | unpin id =>
      unfold step at h
      dsimp only at h
      by_cases hc : 1 ≤ (s.slots id).refcnt ∧ s.held id = false
      · rw [if_pos hc] at h
        simp only [Option.some.injEq] at h
        rw [← h]
        exact inv_tick (inv_bunpin hInv hc.1 hc.2)
      · rw [if_neg hc] at h
        exact absurd h (by simp)

lemma reach_inv {s : BState} (h : Reach s) : Inv s := by
  induction h with
  | init => exact inv_init
  | next hr hstep ih => exact inv_step ih hstep

end Cache

namespace Cache

lemma step_to_c1A : step initState (.read 1 1) = some c1A := rfl

lemma step_to_c1B : step c1A (.release 5) = some c1B := rfl

lemma reach_c1B : Reach c1B :=
  Reach.next (Reach.next Reach.init step_to_c1A) step_to_c1B

/-- C1 counterexample: the uniqueness claim as stated is false, because every
slot starts zero-initialized with identity `(0,0)` and `refcnt = 0`; after the
nonempty operation sequence `read (1,1); release`, slots 0 and 1 (among 63
others) still both carry identity `(0,0)` with `refcnt ≥ 0` at a reachable
observation point. -/
theorem C1_counterexample : ¬C1Stated := by
  intro hc
  have h01 := hc c1B reach_c1B 0 1 (by decide) (by decide) (by decide) (by decide)
    (by decide) (by decide)
  exact absurd h01 (by decide)

/-- C1 (amended): at every observation point reachable by any sequence of
get/read/release/pin/unpin operations, every slot's `refcnt` is non-negative
(so the eviction sentinel `-1` exists only inside an operation, is skipped by
lookups and is never observed at rest), and at most one slot *whose identity
has been assigned by some operation* carries a given `(dev, blockno)`; the
65 zero-initialized never-assigned slots, which all share identity `(0,0)`
with `refcnt = 0`, are the unavoidable exception to the claim as stated. -/
theorem C1_uniqueness_of_assigned_identities (s : BState) (hs : Reach s) :
    (∀ id, 0 ≤ (s.slots id).refcnt) ∧
    (∀ id1 id2, s.assigned id1 = true → s.assigned id2 = true →
      (s.slots id1).dev = (s.slots id2).dev →
      (s.slots id1).blockno = (s.slots id2).blockno → id1 = id2) :=
  ⟨(reach_inv hs).1, (reach_inv hs).2.2.2⟩

/-- Witness for C1 at the initial observation point. -/
theorem C1_witness : 0 ≤ (initState.slots 3).refcnt :=
  (C1_uniqueness_of_assigned_identities initState Reach.init).1 3

end Cache

namespace Cache

/-- C7 counterexample: blocks `n = 0..5` do *not* all hash to one shard
(`hash 5 = 5 ≠ 0 = hash 0`), and after reading and releasing `(1, 0..4)` the
6th read `(1,5)` is served by locally recycling a never-used slot of bucket 5
(previous identity `dev 0, blockno 0`) — no cross-shard eviction happens and
no previously cached block is displaced, refuting the claimed scenario. -/
theorem C7_counterexample :
    (hash 5 ≠ hash 0) ∧
    ((runRR [0, 1, 2, 3, 4] initState).bind (fun s =>
        (bget 1 5 s).toOption.map (fun r =>
          (r.2.2, (s.slots r.2.1).dev, (s.slots r.2.1).blockno)))
      = some (.recycle, 0, 0)) := by decide

set_option maxRecDepth 8000 in
/-- C7 (amended): with per-shard capacity 5 and BUCKETSIZE 13, the blocks
`(dev=1, n ∈ {0,13,26,39,52,65})` — congruent mod 13 — all hash to shard 0;
after reading and immediately releasing each of the first five, the 6th read
is served by *local LRU recycling inside the shard* (all five slots are free
post-release, so no cross-shard eviction and no fatal abort: the bucket lists
of every shard are unchanged), the recycled slot's prior identity is the
least-recently-released block `(1,0)`, and a subsequent read of `(1,0)` no
longer finds that identity (it is served by a recycle, not a hit). -/
theorem C7_amended_same_shard_sixth_read_recycles_lru :
    (∀ n ∈ [0, 13, 26, 39, 52, 65], hash n = 0) ∧
    ((runRR [0, 13, 26, 39, 52] initState).bind (fun s =>
        (bget 1 65 s).toOption.map (fun r =>
          (r.2.2, (s.slots r.2.1).dev, (s.slots r.2.1).blockno,
           decide (∀ i, i < BUCKETSIZE → r.1.buckets i = s.buckets i))))
      = some (.recycle, 1, 0, true)) ∧
    ((runRR [0, 13, 26, 39, 52, 65] initState).bind (fun s =>
        (bread 1 0 s).toOption.map (fun r => r.2.2)) = some .recycle) := by decide

set_option maxRecDepth 8000 in
/-- C8 counterexample: with 66 distinct blocks `13*i (i = 0..65)`, all
hashing to shard 0, the 66th read reuses the slot whose previous identity is
`(1, 780)` — not the first-requested-and-released block `(1, 0)`, whose
identity was already displaced by the 6th request.  The claim as stated fails
for skewed block distributions. -/
theorem C8_counterexample :
    ((runRR ((List.range 65).map (fun i => 13 * i)) initState).bind (fun s =>
        (bget 1 845 s).toOption.map (fun r =>
          (r.2.2, (s.slots r.2.1).dev, (s.slots r.2.1).blockno)))
      = some (.recycle, 1, 780)) ∧
    ((1, 780) : Nat × Nat) ≠ ((1, 0) : Nat × Nat) := by decide

set_option maxRecDepth 8000 in
/-- C8 (amended): for the total capacity C = 65, sequentially reading then
releasing the C+1 distinct blocks `0..65` — a spread that gives each shard at
most its BUFFERSIZE share of the first C blocks — makes the (C+1)-th read
(block 65) reuse the slot whose previous identity was the first requested and
released block `(1, 0)`. -/
theorem C8_amended_even_spread_evicts_first :
    ((runRR (List.range 65) initState).bind (fun s =>
        (bget 1 65 s).toOption.map (fun r =>
          (r.2.2, (s.slots r.2.1).dev, (s.slots r.2.1).blockno)))
      = some (.recycle, 1, 0)) := by decide

end Cache

namespace Cache

/-- Witness for C7 (amended): block 65 hashes to shard 0. -/
theorem C7_witness : hash 65 = 0 :=
  C7_amended_same_shard_sixth_read_recycles_lru.1 65 (by decide)

end Cache

namespace Fs

/-- Witness for C10 at the concrete inode `c6Ip`: the second truncation frees
nothing. -/
theorem C10_witness :
    freedOf (itrunc (itrunc c6Ip c6S).1 (itrunc c6Ip c6S).2).2 =
      freedOf (itrunc c6Ip c6S).2 :=
  (C10_itrunc_idempotent c6Ip c6S).2.1

end Fs
